import Mathlib

/-!
Verification of the round-based game state machine in
`src/project/WhoIsTheSpyDemo/WhoIsTheSpy.py` ("Who is the Spy" demo).

The Python module is embedded shallowly:

* `GameState` mirrors the `GameState` TypedDict.  Python `dict`s are modelled
  as association lists in insertion order (Python dicts preserve insertion
  order; their keys are unique by construction).
* The external LLM chain (`chain.invoke`, a blocking call whose free-form
  text output is then parsed with `json.loads` plus key lookups) is modelled
  per call site as an `LLMResp` value: `raised` when the service call itself
  throws, `malformed` when the returned text does not parse into the required
  fields (`json.JSONDecodeError` / `KeyError`), and `parsed` for a
  successfully extracted record.  The response may depend on the prompt
  context and on which agent is being processed; this over-approximates the
  real stochastic service.
* `random.choice(l)` is modelled as `randomChoice l k : Option α`, picking
  index `k % l.length`; `k` ranges over arbitrary seeds, and `none` encodes
  the `IndexError` Python raises on an empty list.
* Phase functions that can raise a Python exception return
  `Except PyErr GameState`; an `Except.error` models an exception escaping
  the phase function.
-/

/-- Outcome of one `chain.invoke` call followed by the parsing performed at
the call site: the call raised, the returned text failed to parse into the
required fields, or the fields were extracted as a value of `α`. -/
inductive LLMResp (α : Type) where
  | raised
  | malformed
  | parsed (val : α)
deriving DecidableEq

/-- Python exceptions that can escape the embedded functions. -/
inductive PyErr where
  /-- an exception raised by the external service call (`chain.invoke`) -/
  | serviceError
  /-- `ValueError` from `max()` on an empty sequence -/
  | valueError
  /-- `IndexError` from `random.choice` on an empty list -/
  | indexError
  /-- `KeyError` from a dict lookup -/
  | keyError
deriving DecidableEq

/-- Fields of the JSON object expected from the word-generation call. -/
structure WordData where
  civilian : String
  undercover : String
deriving DecidableEq

/-- Fields of the JSON object expected from a speech-generation call. -/
structure SpeechData where
  speech : String
  reason : String
deriving DecidableEq

/-- Fields of the JSON object expected from a voting call. -/
structure VoteData where
  vote : String
  reason : String
deriving DecidableEq

/-- The `GameState` TypedDict.  Dict-typed fields are association lists in
insertion order. `role_assignment` maps an agent to `(role, word)`. -/
structure GameState where
  civilian_word : String
  undercover_word : String
  role_assignment : List (String × String × String)
  speeches : List (String × String)
  history_speeches : List (List (String × String))
  speech_reasoning : List (String × String)
  votes : List (String × String)
  vote_reasoning : List (String × String)
  game_status : String
  winner : String
  eliminated : List String
  round : Nat
deriving DecidableEq, Inhabited

/-- `init_game_state` (lines 46-60). -/
def init_game_state : GameState :=
  { civilian_word := ""
    undercover_word := ""
    role_assignment := []
    speeches := []
    history_speeches := []
    speech_reasoning := []
    votes := []
    vote_reasoning := []
    game_status := "running"
    winner := ""
    eliminated := []
    round := 1 }

/-- `random.choice l` under seed `k`: element at index `k % l.length`;
`none` models the `IndexError` raised on an empty list.  Every element of a
nonempty `l` is returned for some `k`, matching a uniform draw with every
candidate having non-zero probability. -/
def randomChoice {α : Type} (l : List α) (k : Nat) : Option α :=
  l[k % l.length]?

/-- `random.choice` on a list known to be nonempty (total version). -/
def choiceNE {α : Type} (l : List α) (h : l ≠ []) (k : Nat) : α :=
  l.get ⟨k % l.length, Nat.mod_lt k (List.length_pos.mpr h)⟩

/-- Assignment `d[key] = v` on a Python dict modelled as an association
list: overwrite in place if present, else append. -/
def dictInsert {α : Type} (d : List (String × α)) (key : String) (v : α) :
    List (String × α) :=
  match d with
  | [] => [(key, v)]
  | (a, w) :: rest =>
      if a = key then (a, v) :: rest else (a, w) :: dictInsert rest key v

/-- Dict lookup `d[key]`, `none` when the key is absent (`KeyError`). -/
def lookupA {α : Type} (l : List (String × α)) (key : String) : Option α :=
  match l with
  | [] => none
  | (a, v) :: rest => if a = key then some v else lookupA rest key

/-- One step of vote counting: `vote_count[v] = vote_count.get(v, 0) + 1`. -/
def bump (m : List (String × Nat)) (v : String) : List (String × Nat) :=
  match m with
  | [] => [(v, 1)]
  | (a, c) :: rest =>
      if a = v then (a, c + 1) :: rest else (a, c) :: bump rest v

/-- The `vote_count` dict built by `judge_result` (lines 282-284). -/
def tally (vs : List String) : List (String × Nat) := vs.foldl bump []

/-- `max` over a list of counts (Python `max(vote_count.values())`; the
`0` base is never the result because every tally count is positive). -/
def listMax (l : List Nat) : Nat := l.foldl Nat.max 0

/-- `fallback_pairs` (lines 82-85). -/
def fallback_pairs : List (String × String) :=
  [("奶茶", "果汁"), ("牙刷", "牙膏"), ("米饭", "面条"),
   ("手机", "平板"), ("篮球", "足球"), ("咖啡", "红茶")]

/-- `generate_words` (lines 63-91).  `resp` is the outcome of
`chain.invoke` plus the `json.loads`/field extraction of lines 77-81; the
`try` block covers only the parsing, so a raising service call escapes the
function. `k` seeds the `random.choice` of line 86. -/
def generate_words (resp : LLMResp WordData) (k : Nat) (s : GameState) :
    Except PyErr GameState :=
  match resp with
  | .raised => .error .serviceError
  | .malformed =>
      match randomChoice fallback_pairs k with
      | none => .error .indexError
      | some (c, u) => .ok { s with civilian_word := c, undercover_word := u }
  | .parsed w =>
      .ok { s with civilian_word := w.civilian, undercover_word := w.undercover }

/-- The fixed agent list of `assign_roles` (line 95). -/
def agents : List String := ["agent1", "agent2", "agent3", "agent4"]

/-- The agent selected by `random.choice(agents)` under seed `k`. -/
def chosenUndercover (k : Nat) : String :=
  choiceNE agents (by decide) k

/-- `assign_roles` (lines 94-106): pick one undercover uniformly at random,
then write every agent entry of `role_assignment` in agent order. -/
def assign_roles (k : Nat) (s : GameState) : GameState :=
  let undercover := chosenUndercover k
  let ra := agents.foldl
    (fun d agent =>
      dictInsert d agent
        (if agent = undercover then ("卧底", s.undercover_word)
         else ("平民", s.civilian_word)))
    s.role_assignment
  { s with role_assignment := ra }

/-- The role assignment produced by `assign_roles` from an empty dict when
agent `u` is the chosen undercover. -/
def raOf (u cw uw : String) : List (String × String × String) :=
  agents.map (fun a => (a, if a = u then ("卧底", uw) else ("平民", cw)))

/-- One round block body of the history context (lines 128-130): a line per
agent of that round whose speaker is not eliminated. -/
def roundLines (elim : List String) : List (String × String) → String
  | [] => ""
  | (agent, speech) :: rest =>
      (if elim.contains agent then ""
       else "- " ++ agent ++ "：" ++ speech ++ "\n") ++ roundLines elim rest

/-- The per-round blocks of the history context (lines 126-130), with
1-based round numbering from `enumerate(_, 1)`. -/
def roundsBlock (elim : List String) : Nat → List (List (String × String)) → String
  | _, [] => ""
  | idx, r :: rest =>
      "第" ++ toString idx ++ "轮发言：\n" ++ roundLines elim r
        ++ roundsBlock elim (idx + 1) rest

/-- `history_context` as built by `generate_speeches` (lines 123-131). -/
def historyContext (hist : List (List (String × String))) (elim : List String) :
    String :=
  if hist = [] then ""
  else "【历史发言记录】\n" ++ roundsBlock elim 1 hist ++ "\n"

/-- Padding appended to a short civilian speech (line 177, without the
leading kept speech). -/
def civilianPad : String :=
  "，是日常生活中很常见的物品，使用场景非常广泛，几乎每个人都接触过"

/-- Padding appended to a short undercover speech (line 179). -/
def undercoverPad : String :=
  "，大家在生活中经常能见到或用到，不同场景下的用法基本一致，不容易区分"

/-- Fallback speech and reason substituted on a parse failure
(lines 182-189), parameterized by role and current round. -/
def speechFallback (round : Nat) (role : String) : String × String :=
  if role = "平民" then
    ("第" ++ toString round ++
       "轮发言：这是日常能用到的东西，使用频率很高，不同品牌的款式略有差异，但核心功能是一样的，几乎每个家庭都有这类物品，是生活中不可或缺的常用品",
     "平民兜底发言，第" ++ toString round ++
       "轮避免重复前轮，完整描述物品核心特征，不做截断处理")
  else
    ("第" ++ toString round ++
       "轮发言：这是大家都熟悉的物品，平时使用场景很多，外观和功能都比较相似，很难快速区分不同类型，生活中随处可见，几乎每个人都使用过这类物品",
     "卧底兜底发言，第" ++ toString round ++
       "轮伪装平民，完整模糊描述特征避免暴露身份，不截断")

/-- Processing of one agent inside the speech loop (lines 158-191): a raising
service call escapes (the `try` of line 160 starts after `chain.invoke`); a
parse failure substitutes `speechFallback`; a parsed speech shorter than 10
characters gets the role-specific padding appended; otherwise the speech is
kept verbatim.  Returns the recorded `(speech, reason)`. -/
def speechStep (round : Nat) (role : String) (r : LLMResp SpeechData) :
    Except PyErr (String × String) :=
  match r with
  | .raised => .error .serviceError
  | .malformed => .ok (speechFallback round role)
  | .parsed d =>
      .ok ((if d.speech.length < 10 then
              d.speech ++ (if role = "平民" then civilianPad else undercoverPad)
            else d.speech),
           d.reason)

/-- The per-agent loop of `generate_speeches` (lines 154-199): iterate
`role_assignment` in insertion order, skip eliminated agents, and build the
`speeches` and `reasoning` dicts.  `resp a` is the outcome of the call made
for agent `a`. -/
def speechLoop (resp : String → LLMResp SpeechData) (round : Nat)
    (elim : List String) :
    List (String × String × String) →
    Except PyErr (List (String × String) × List (String × String))
  | [] => .ok ([], [])
  | (agent, role, _word) :: rest =>
      if agent ∈ elim then speechLoop resp round elim rest
      else
        match speechStep round role (resp agent) with
        | .error e => .error e
        | .ok (sp, rs) =>
            match speechLoop resp round elim rest with
            | .error e => .error e
            | .ok (sps, rss) => .ok ((agent, sp) :: sps, (agent, rs) :: rss)

/-- `generate_speeches` (lines 109-205).  `resp ctx agent` is the outcome of
the generation call for `agent` when the history context string is `ctx`. -/
def generate_speeches (resp : String → String → LLMResp SpeechData)
    (s : GameState) : Except PyErr GameState :=
  match speechLoop (resp (historyContext s.history_speeches s.eliminated))
      s.round s.eliminated s.role_assignment with
  | .error e => .error e
  | .ok (sps, rss) =>
      .ok { s with
              history_speeches := s.history_speeches ++ [sps]
              speeches := sps
              speech_reasoning := rss }

/-- `current_agents` (line 210): agents of `role_assignment`, in insertion
order, that are not eliminated. -/
def currentAgentsL (ra : List (String × String × String))
    (elim : List String) : List String :=
  (ra.map (·.1)).filter (fun a => !(elim.contains a))

/-- `current_agents` computed from a state. -/
def currentAgents (s : GameState) : List String :=
  currentAgentsL s.role_assignment s.eliminated

/-- One history line of the voting context (lines 221-223): kept only when
the speaker is among `current_agents`. -/
def voteHistLines (cur : List String) : List (String × String) → String
  | [] => ""
  | (agent, speech) :: rest =>
      (if cur.contains agent then "- " ++ agent ++ "：" ++ speech ++ "\n"
       else "") ++ voteHistLines cur rest

/-- The per-round blocks of the voting history context (lines 219-223). -/
def voteHistBlock (cur : List String) : Nat → List (List (String × String)) → String
  | _, [] => ""
  | idx, r :: rest =>
      "第" ++ toString idx ++ "轮：\n" ++ voteHistLines cur r
        ++ voteHistBlock cur (idx + 1) rest

/-- `speech_context` as built by `vote_undercover` (lines 214-223): the
current round speeches, then — when any history exists — all but the last
history entry (the last one is the current round, appended by
`generate_speeches`), restricted to currently active speakers. -/
def voteSpeechContext (round : Nat) (speeches : List (String × String))
    (hist : List (List (String × String))) (cur : List String) : String :=
  let base := "【第" ++ toString round ++ "轮发言】\n" ++
    String.intercalate "\n" (speeches.map (fun p => p.1 ++ "：" ++ p.2))
  if hist = [] then base
  else base ++ "\n\n【历史发言参考】\n" ++ voteHistBlock cur 1 hist.dropLast

/-- Python `str.strip()`: drop leading and trailing whitespace.  (Stated on
the character list of the string so that it evaluates by kernel
reduction.) -/
def pyStrip (s : String) : String :=
  ⟨((s.data.dropWhile Char.isWhitespace).reverse.dropWhile
      Char.isWhitespace).reverse⟩

/-- The fallback vote rationale of lines 261-264.  In the source it is
`textwrap.shorten(text, width=50)`; the text is far below 50 characters for
any realistic round number, making `shorten` the identity. -/
def voteFallbackReason (round : Nat) : String :=
  "第" ++ toString round ++ "轮无有效分析，基于随机策略投票"

/-- The `try/except` block of the voting loop (lines 252-264): a raising
service call escapes (the `try` starts after `chain.invoke`); a parse
failure picks a uniformly random target among the active agents other than
the voter, consuming one value of the random stream `rand` at position
`ctr`.  Returns `((vote, reason), next random-stream position)`. -/
def voteTryExcept (cur : List String) (agent : String) (round : Nat)
    (r : LLMResp VoteData) (rand : Nat → Nat) (ctr : Nat) :
    Except PyErr ((String × String) × Nat) :=
  match r with
  | .raised => .error .serviceError
  | .malformed =>
      match randomChoice (cur.filter (fun a => !(a == agent))) (rand ctr) with
      | none => .error .indexError
      | some v => .ok ((v, voteFallbackReason round), ctr + 1)
  | .parsed d => .ok ((pyStrip d.vote, d.reason), ctr)

/-- Processing of one agent inside the voting loop (lines 246-271): the
`try/except` block, then the legality check of line 267, which replaces a
self-vote or a vote outside `current_agents` by the same uniformly random
selection among the active agents other than the voter. -/
def voteStep (cur : List String) (agent : String) (round : Nat)
    (r : LLMResp VoteData) (rand : Nat → Nat) (ctr : Nat) :
    Except PyErr ((String × String) × Nat) :=
  match voteTryExcept cur agent round r rand ctr with
  | .error e => .error e
  | .ok ((v, rs), c) =>
      if v = agent ∨ v ∉ cur then
        match randomChoice (cur.filter (fun a => !(a == agent))) (rand c) with
        | none => .error .indexError
        | some v2 => .ok ((v2, rs), c + 1)
      else .ok ((v, rs), c)

/-- The per-agent loop of `vote_undercover` (lines 243-274), threading the
position in the random stream. -/
def voteLoop (resp : String → LLMResp VoteData) (cur : List String)
    (round : Nat) (elim : List String) (rand : Nat → Nat) :
    List (String × String × String) → Nat →
    Except PyErr (List (String × String) × List (String × String))
  | [], _ => .ok ([], [])
  | (agent, _role, _word) :: rest, ctr =>
      if agent ∈ elim then voteLoop resp cur round elim rand rest ctr
      else
        match voteStep cur agent round (resp agent) rand ctr with
        | .error e => .error e
        | .ok ((v, rs), c) =>
            match voteLoop resp cur round elim rand rest c with
            | .error e => .error e
            | .ok (vs, rss) => .ok ((agent, v) :: vs, (agent, rs) :: rss)

/-- `vote_undercover` (lines 207-278).  `resp ctx agent` is the outcome of
the voting call for `agent` under speech context `ctx`; `rand` is the
stream of seeds consumed by the `random.choice` calls, in order. -/
def vote_undercover (resp : String → String → LLMResp VoteData)
    (rand : Nat → Nat) (s : GameState) : Except PyErr GameState :=
  match voteLoop
      (resp (voteSpeechContext s.round s.speeches s.history_speeches
        (currentAgents s)))
      (currentAgents s) s.round s.eliminated rand s.role_assignment 0 with
  | .error e => .error e
  | .ok (vs, rss) =>
      .ok { s with votes := vs, vote_reasoning := rss }

/-- Role of agent `a` in a role assignment: first component of
`role_assignment[a]`. -/
def roleOf (ra : List (String × String × String)) (a : String) :
    Option String :=
  (lookupA ra a).map (·.1)

/-- The tied candidates of `judge_result` (line 286): all keys of
`vote_count` whose count equals the maximum count. -/
def tiedCandidates (votes : List (String × String)) : List String :=
  let vc := tally (votes.map (·.2))
  (vc.filter (fun p => p.2 = listMax (vc.map (·.2)))).map (·.1)

/-- `remaining` as computed by `judge_result` (line 293) after appending the
newly eliminated agent `e`. -/
def remainingAfter (ra : List (String × String × String))
    (elim : List String) (e : String) : List String :=
  (ra.map (·.1)).filter (fun a => !((elim ++ [e]).contains a))

/-- `civ` of `judge_result` (line 294): remaining active agents whose role
is `平民`. -/
def civAfter (ra : List (String × String × String)) (elim : List String)
    (e : String) : Nat :=
  (remainingAfter ra elim e).countP (fun a => roleOf ra a == some "平民")

/-- `uc` of `judge_result` (line 295): remaining active agents whose role
is `卧底`. -/
def ucAfter (ra : List (String × String × String)) (elim : List String)
    (e : String) : Nat :=
  (remainingAfter ra elim e).countP (fun a => roleOf ra a == some "卧底")

/-- Number of active (non-eliminated) agents holding the civilian role, as
counted by the formula of line 294 over the pre-elimination state. -/
def civActive (ra : List (String × String × String)) (elim : List String) :
    Nat :=
  (currentAgentsL ra elim).countP (fun a => roleOf ra a == some "平民")

/-- Number of active agents holding the undercover role (line 295). -/
def ucActive (ra : List (String × String × String)) (elim : List String) :
    Nat :=
  (currentAgentsL ra elim).countP (fun a => roleOf ra a == some "卧底")

/-- `judge_result` (lines 281-309): tally the votes, draw the eliminated
agent uniformly among the candidates tied at the maximum count, append it to
`eliminated`, then evaluate the win conditions in order.  `k` seeds the
`random.choice` of line 286.  An empty `votes` dict makes Python `max()`
raise `ValueError`; the embedding reports it at the same point. -/
def judge_result (k : Nat) (s : GameState) : Except PyErr GameState :=
  if tally (s.votes.map (·.2)) = [] then .error .valueError
  else
    match randomChoice (tiedCandidates s.votes) k with
    | none => .error .indexError
    | some e =>
        match lookupA s.role_assignment e with
        | none => .error .keyError
        | some (role, _word) =>
            if role = "卧底" then
              .ok { s with eliminated := s.eliminated ++ [e],
                           game_status := "end", winner := "civilian" }
            else if civAfter s.role_assignment s.eliminated e = 1 ∧
                    ucAfter s.role_assignment s.eliminated e = 1 then
              .ok { s with eliminated := s.eliminated ++ [e],
                           game_status := "end", winner := "undercover" }
            else
              .ok { s with eliminated := s.eliminated ++ [e],
                           game_status := "running", round := s.round + 1 }

/-- The sources of nondeterminism of one full game: the word-generation
response and seed, the role seed, the per-round speech and vote responses
(as functions of the context string and the agent), the per-round random
stream of the voting phase, and the per-round judgment seed. -/
structure Oracles where
  words : LLMResp WordData
  wordRand : Nat
  roleRand : Nat
  speech : Nat → String → String → LLMResp SpeechData
  vote : Nat → String → String → LLMResp VoteData
  voteRand : Nat → Nat → Nat
  judgeRand : Nat → Nat

/-- One pass through the cycle `generate_speeches → vote_undercover →
judge_result` of the LangGraph (edges of lines 335-336 and the node of
line 329). -/
def roundStep (o : Oracles) (s : GameState) : Except PyErr GameState :=
  match generate_speeches (o.speech s.round) s with
  | .error e => .error e
  | .ok s1 =>
      match vote_undercover (o.vote s1.round) (o.voteRand s1.round) s1 with
      | .error e => .error e
      | .ok s2 => judge_result (o.judgeRand s2.round) s2

/-- The conditional loop of the graph (`route`, lines 338-340): keep cycling
while `game_status == "running"`, otherwise stop (`show_final_result` only
prints).  `fuel` bounds the number of judgment calls; running out of fuel
returns the state reached so far. -/
def runLoop (o : Oracles) : Nat → GameState → Except PyErr GameState
  | 0, s => .ok s
  | n + 1, s =>
      if s.game_status = "running" then
        match roundStep o s with
        | .error e => .error e
        | .ok s' => runLoop o n s'
      else .ok s

/-- A full game from `init_game_state` (lines 331-351): words, then roles,
then the speech/vote/judge cycle with at most `fuel` judgment calls. -/
def fullGame (o : Oracles) (fuel : Nat) : Except PyErr GameState :=
  match generate_words o.words o.wordRand init_game_state with
  | .error e => .error e
  | .ok s1 => runLoop o fuel (assign_roles o.roleRand s1)

/-- The state of a successful phase result (used to state closed concrete
facts about computed results). -/
def okState (x : Except PyErr GameState) : GameState :=
  x.toOption.getD default

/-- A state as reached right after role assignment with `agent1` the
undercover holder: used to evaluate the phase functions on explicit
inputs. -/
def sAssigned : GameState :=
  { init_game_state with role_assignment := raOf "agent1" "奶茶" "果汁" }

/-- `sAssigned` with one player already eliminated. -/
def sElim : GameState :=
  { sAssigned with eliminated := ["agent3"] }

/-- `sAssigned` with a concrete unanimous vote dict against `agent2`. -/
def sJudge : GameState :=
  { sAssigned with
      votes := [("agent1", "agent2"), ("agent3", "agent2"),
                ("agent4", "agent2")] }

/-- A speech oracle whose every response fails to parse. -/
def respSpeechMal : String → String → LLMResp SpeechData :=
  fun _ _ => .malformed

/-- A vote oracle that always answers `agent2`. -/
def respVoteDemo : String → String → LLMResp VoteData :=
  fun _ _ => .parsed ⟨"agent2", "投票理由"⟩

/-- A complete bundle of concrete oracles for explicit game runs: words
parse, `agent1` is drawn as undercover, speeches parse at length 10, every
vote names `agent2`, and every random draw takes index 0. -/
def oDemo : Oracles :=
  { words := .parsed ⟨"奶茶", "果汁"⟩
    wordRand := 0
    roleRand := 0
    speech := fun _ _ _ => .parsed ⟨"0123456789", "发言理由"⟩
    vote := fun _ _ _ => .parsed ⟨"agent2", "投票理由"⟩
    voteRand := fun _ _ => 0
    judgeRand := fun _ => 0 }

/-! ### Basic facts about the random-choice model -/

theorem randomChoice_mem {α : Type} {l : List α} {k : Nat} {x : α}
    (h : randomChoice l k = some x) : x ∈ l := by
  unfold randomChoice at h
  exact List.getElem?_mem h

theorem randomChoice_surj {α : Type} {l : List α} {x : α} (h : x ∈ l) :
    ∃ k, randomChoice l k = some x := by
  obtain ⟨⟨i, hi⟩, hx⟩ := List.mem_iff_get.mp h
  refine ⟨i, ?_⟩
  unfold randomChoice
  rw [Nat.mod_eq_of_lt hi]
  simp [List.getElem?_eq_getElem hi, ← hx]

theorem choiceNE_mem {α : Type} (l : List α) (h : l ≠ []) (k : Nat) :
    choiceNE l h k ∈ l := by
  unfold choiceNE
  exact List.get_mem l _ _

theorem choiceNE_surj {α : Type} {l : List α} (h : l ≠ []) {x : α}
    (hx : x ∈ l) : ∃ k, choiceNE l h k = x := by
  obtain ⟨⟨i, hi⟩, hg⟩ := List.mem_iff_get.mp hx
  refine ⟨i, ?_⟩
  unfold choiceNE
  simp only [← hg]
  congr 1
  exact Fin.ext (Nat.mod_eq_of_lt hi)

/-! ### Association-list facts -/

theorem lookupA_map_fn {α : Type} (l : List String) (f : String → α)
    (e : String) :
    lookupA (l.map fun a => (a, f a)) e = if e ∈ l then some (f e) else none := by
  induction l with
  | nil => simp [lookupA]
  | cons b rest ih =>
      simp only [List.map_cons, lookupA, List.mem_cons]
      by_cases hbe : b = e
      · subst hbe; simp
      · simp only [if_neg hbe, ih]
        by_cases he : e ∈ rest
        · simp [he]
        · have heb : e ≠ b := fun h => hbe h.symm
          simp [he, heb]

theorem lookupA_isSome_of_mem_keys {α : Type} {l : List (String × α)}
    {a : String} (h : a ∈ l.map (·.1)) : ∃ v, lookupA l a = some v := by
  induction l with
  | nil => simp at h
  | cons p rest ih =>
      simp only [List.map_cons, List.mem_cons] at h
      by_cases hpa : p.1 = a
      · exact ⟨p.2, by simp [lookupA, hpa]⟩
      · obtain h | h := h
        · exact absurd h.symm hpa
        · obtain ⟨v, hv⟩ := ih h
          exact ⟨v, by rw [← hv]; simp [lookupA, hpa, hv]⟩

theorem lookupA_of_mem_nodup {α : Type} {l : List (String × α)} {a : String}
    {b : α} (hmem : (a, b) ∈ l) (hnd : (l.map (·.1)).Nodup) :
    lookupA l a = some b := by
  induction l with
  | nil => simp at hmem
  | cons p rest ih =>
      simp only [List.map_cons, List.nodup_cons] at hnd
      simp only [List.mem_cons] at hmem
      obtain h | h := hmem
      · subst h; simp [lookupA]
      · have hne : p.1 ≠ a := by
          intro he
          exact hnd.1 (he ▸ (List.mem_map_of_mem (·.1) h))
        simp [lookupA, hne, ih h hnd.2]

/-! ### Vote-tally facts -/

theorem bump_keys {m : List (String × Nat)} {v x : String}
    (h : x ∈ (bump m v).map (·.1)) : x ∈ m.map (·.1) ∨ x = v := by
  induction m with
  | nil => simpa [bump] using h
  | cons p rest ih =>
      by_cases hpv : p.1 = v
      · left
        obtain ⟨a, c⟩ := p
        simp only at hpv
        subst hpv
        simpa [bump] using h
      · obtain ⟨a, c⟩ := p
        simp only at hpv
        simp only [bump, if_neg hpv, List.map_cons, List.mem_cons] at h
        obtain h | h := h
        · exact .inl (by simp [h])
        · obtain h | h := ih h
          · exact .inl (by simp [h])
          · exact .inr h

theorem foldl_bump_keys (vs : List String) :
    ∀ (acc : List (String × Nat)) (x : String),
      x ∈ (vs.foldl bump acc).map (·.1) → x ∈ acc.map (·.1) ∨ x ∈ vs := by
  induction vs with
  | nil => intro acc x hacc; exact .inl hacc
  | cons v rest ih =>
      intro acc x hacc
      rcases ih (bump acc v) x hacc with h' | h'
      · rcases bump_keys h' with h'' | h''
        · exact .inl h''
        · exact .inr (by simp [h''])
      · exact .inr (List.mem_cons_of_mem _ h')

theorem tally_keys_sub {vs : List String} {x : String}
    (h : x ∈ (tally vs).map (·.1)) : x ∈ vs := by
  rcases foldl_bump_keys vs [] x h with h' | h'
  · simp at h'
  · exact h'

theorem tiedCandidates_sub {votes : List (String × String)} {x : String}
    (h : x ∈ tiedCandidates votes) : x ∈ votes.map (·.2) := by
  unfold tiedCandidates at h
  obtain ⟨p, hp, hpx⟩ := List.mem_map.mp h
  exact tally_keys_sub (hpx ▸ List.mem_map_of_mem (·.1) (List.mem_filter.mp hp).1)

/-! ### String nonemptiness facts -/

theorem append_ne_empty_left {a : String} (b : String) (h : a ≠ "") :
    a ++ b ≠ "" := by
  intro he
  rw [String.ext_iff, String.data_append] at he
  rcases hd : a.data with _ | ⟨c, cs⟩
  · exact h (String.ext (by simp [hd]))
  · rw [hd] at he; simp at he

theorem append_ne_empty_right (a : String) {b : String} (h : b ≠ "") :
    a ++ b ≠ "" := by
  intro he
  rw [String.ext_iff, String.data_append] at he
  have : b.data = [] := (List.append_eq_nil.mp he).2
  exact h (String.ext (by simp [this]))

theorem ne_empty_of_length_pos {s : String} (h : 0 < s.length) : s ≠ "" := by
  intro he
  rw [he] at h
  simp [String.length] at h

/-! ### Maximum and tally facts -/

theorem foldl_max_le_self (l : List Nat) : ∀ a : Nat, a ≤ l.foldl Nat.max a := by
  induction l with
  | nil => intro a; simp
  | cons x rest ih =>
      intro a
      exact le_trans (Nat.le_max_left a x) (ih (Nat.max a x))

theorem le_foldl_max {l : List Nat} {x : Nat} (h : x ∈ l) :
    ∀ a : Nat, x ≤ l.foldl Nat.max a := by
  induction l generalizing x with
  | nil => simp at h
  | cons y rest ih =>
      intro a
      rcases List.mem_cons.mp h with h | h
      · subst h
        exact le_trans (Nat.le_max_right a x) (foldl_max_le_self rest _)
      · exact ih h _

theorem le_listMax {l : List Nat} {x : Nat} (h : x ∈ l) : x ≤ listMax l :=
  le_foldl_max h 0

theorem bump_keys_eq (m : List (String × Nat)) (v : String) :
    (bump m v).map (·.1) =
      if v ∈ m.map (·.1) then m.map (·.1) else m.map (·.1) ++ [v] := by
  induction m with
  | nil => simp [bump]
  | cons p rest ih =>
      obtain ⟨a, c⟩ := p
      by_cases hav : a = v
      · subst hav; simp [bump]
      · have hvne : ¬ v = a := fun h => hav h.symm
        simp only [bump, if_neg hav, List.map_cons, ih]
        by_cases hv : v ∈ rest.map (·.1)
        · simp [hv, hvne]
        · simp [hv, hvne]

theorem bump_keys_nodup {m : List (String × Nat)} (v : String)
    (h : (m.map (·.1)).Nodup) : ((bump m v).map (·.1)).Nodup := by
  rw [bump_keys_eq]
  by_cases hv : v ∈ m.map (·.1)
  · simpa [hv]
  · simpa [hv, List.nodup_append] using h

theorem tally_keys_nodup (vs : List String) : ((tally vs).map (·.1)).Nodup := by
  suffices H : ∀ acc : List (String × Nat), (acc.map (·.1)).Nodup →
      (((vs.foldl bump acc)).map (·.1)).Nodup by
    exact H [] (by simp)
  induction vs with
  | nil => intro acc hacc; exact hacc
  | cons v rest ih => intro acc hacc; exact ih _ (bump_keys_nodup v hacc)

theorem tiedCandidates_count {votes : List (String × String)} {x : String}
    (h : x ∈ tiedCandidates votes) :
    lookupA (tally (votes.map (·.2))) x =
      some (listMax ((tally (votes.map (·.2))).map (·.2))) := by
  unfold tiedCandidates at h
  obtain ⟨p, hp, hpx⟩ := List.mem_map.mp h
  obtain ⟨hpmem, hpc⟩ := List.mem_filter.mp hp
  have hc : p.2 = listMax ((tally (votes.map (·.2))).map (·.2)) := by
    simpa using hpc
  have : (p.1, p.2) ∈ tally (votes.map (·.2)) := by simpa using hpmem
  rw [← hpx, ← hc]
  exact lookupA_of_mem_nodup this (tally_keys_nodup _)


/-! ### Shape of the speech phase -/

theorem speechStep_raised (round : Nat) (role : String) :
    speechStep round role .raised = .error .serviceError := rfl

theorem speechStep_malformed (round : Nat) (role : String) :
    speechStep round role .malformed = .ok (speechFallback round role) := rfl

theorem speechStep_parsed (round : Nat) (role : String) (d : SpeechData) :
    speechStep round role (.parsed d) =
      .ok ((if d.speech.length < 10 then
              d.speech ++ (if role = "平民" then civilianPad else undercoverPad)
            else d.speech),
           d.reason) := rfl

theorem generate_speeches_ok {resp : String → String → LLMResp SpeechData}
    {s s' : GameState} (h : generate_speeches resp s = .ok s') :
    s'.civilian_word = s.civilian_word ∧
    s'.undercover_word = s.undercover_word ∧
    s'.role_assignment = s.role_assignment ∧
    s'.votes = s.votes ∧
    s'.vote_reasoning = s.vote_reasoning ∧
    s'.game_status = s.game_status ∧
    s'.winner = s.winner ∧
    s'.eliminated = s.eliminated ∧
    s'.round = s.round ∧
    s'.history_speeches = s.history_speeches ++ [s'.speeches] ∧
    speechLoop (resp (historyContext s.history_speeches s.eliminated))
        s.round s.eliminated s.role_assignment =
      .ok (s'.speeches, s'.speech_reasoning) := by
  unfold generate_speeches at h
  split at h
  · cases h
  · cases h
    refine ⟨rfl, rfl, rfl, rfl, rfl, rfl, rfl, rfl, rfl, rfl, ?_⟩
    assumption

theorem speechFallback_ne_empty (round : Nat) (role : String) :
    (speechFallback round role).1 ≠ "" := by
  unfold speechFallback
  split
  · exact append_ne_empty_left _ (append_ne_empty_left _ (by decide))
  · exact append_ne_empty_left _ (append_ne_empty_left _ (by decide))

theorem speechStep_ne_empty {round : Nat} {role : String}
    {r : LLMResp SpeechData} {sp rs : String}
    (h : speechStep round role r = .ok (sp, rs)) : sp ≠ "" := by
  cases r with
  | raised => cases h
  | malformed =>
      rw [speechStep_malformed] at h
      have h1 : (speechFallback round role).1 = sp :=
        congrArg Prod.fst (Except.ok.inj h)
      rw [← h1]
      exact speechFallback_ne_empty round role
  | parsed d =>
      rw [speechStep_parsed] at h
      have h1 := congrArg Prod.fst (Except.ok.inj h)
      simp only at h1
      rw [← h1]
      by_cases hlen : d.speech.length < 10
      · rw [if_pos hlen]
        by_cases hr : role = "平民"
        · rw [if_pos hr]
          exact append_ne_empty_right _ (by decide)
        · rw [if_neg hr]
          exact append_ne_empty_right _ (by decide)
      · rw [if_neg hlen]
        exact ne_empty_of_length_pos (by omega)

theorem speechLoop_keys {resp : String → LLMResp SpeechData} {round : Nat}
    {elim : List String} :
    ∀ {l : List (String × String × String)}
      {sps rss : List (String × String)},
      speechLoop resp round elim l = .ok (sps, rss) →
      sps.map (·.1) = (l.map (·.1)).filter (fun a => !(elim.contains a)) := by
  intro l
  induction l with
  | nil =>
      intro sps rss h
      unfold speechLoop at h
      cases h
      rfl
  | cons item rest ih =>
      intro sps rss h
      obtain ⟨agent, role, word⟩ := item
      unfold speechLoop at h
      by_cases he : agent ∈ elim
      · rw [if_pos he] at h
        rw [ih h]
        simp [List.filter_cons, he]
      · rw [if_neg he] at h
        cases hst : speechStep round role (resp agent) with
        | error e => rw [hst] at h; cases h
        | ok pr =>
            obtain ⟨sp, rs⟩ := pr
            rw [hst] at h
            cases hrest : speechLoop resp round elim rest with
            | error e => rw [hrest] at h; cases h
            | ok pr' =>
                obtain ⟨sps', rss'⟩ := pr'
                rw [hrest] at h
                cases h
                simp only [List.map_cons]
                rw [ih hrest]
                simp [List.filter_cons, he]

theorem speechLoop_lookup {resp : String → LLMResp SpeechData} {round : Nat}
    {elim : List String} :
    ∀ {l : List (String × String × String)}
      {sps rss : List (String × String)},
      speechLoop resp round elim l = .ok (sps, rss) →
      (l.map (·.1)).Nodup →
      ∀ item ∈ l, item.1 ∉ elim →
        ∃ sp rs, speechStep round item.2.1 (resp item.1) = .ok (sp, rs) ∧
          lookupA sps item.1 = some sp := by
  intro l
  induction l with
  | nil => intro sps rss h _ item hitem; simp at hitem
  | cons hd rest ih =>
      intro sps rss h hnd item hitem hact
      obtain ⟨agent, role, word⟩ := hd
      simp only [List.map_cons, List.nodup_cons] at hnd
      unfold speechLoop at h
      by_cases he : agent ∈ elim
      · rw [if_pos he] at h
        rcases List.mem_cons.mp hitem with hi | hi
        · exact absurd (hi ▸ he) hact
        · exact ih h hnd.2 item hi hact
      · rw [if_neg he] at h
        cases hst : speechStep round role (resp agent) with
        | error e => rw [hst] at h; cases h
        | ok pr =>
            obtain ⟨sp, rs⟩ := pr
            rw [hst] at h
            cases hrest : speechLoop resp round elim rest with
            | error e => rw [hrest] at h; cases h
            | ok pr' =>
                obtain ⟨sps', rss'⟩ := pr'
                rw [hrest] at h
                cases h
                rcases List.mem_cons.mp hitem with hi | hi
                · subst hi
                  exact ⟨sp, rs, hst, by simp [lookupA]⟩
                · have hne : agent ≠ item.1 := by
                    intro he'
                    exact hnd.1 (he' ▸ List.mem_map_of_mem (·.1) hi)
                  obtain ⟨sp', rs', hstep, hlook⟩ := ih hrest hnd.2 item hi hact
                  exact ⟨sp', rs', hstep, by simp [lookupA, hne, hlook]⟩

theorem speechLoop_no_raise_ok {resp : String → LLMResp SpeechData}
    {round : Nat} {elim : List String} :
    ∀ l : List (String × String × String),
      (∀ item ∈ l, item.1 ∉ elim → resp item.1 ≠ .raised) →
      ∃ pr, speechLoop resp round elim l = .ok pr := by
  intro l
  induction l with
  | nil => intro _; exact ⟨([], []), rfl⟩
  | cons hd rest ih =>
      intro hno
      obtain ⟨agent, role, word⟩ := hd
      obtain ⟨pr, hpr⟩ := ih (fun item hi => hno item (List.mem_cons_of_mem _ hi))
      obtain ⟨sps', rss'⟩ := pr
      by_cases he : agent ∈ elim
      · exact ⟨(sps', rss'), by unfold speechLoop; rw [if_pos he]; exact hpr⟩
      · cases hr : resp agent with
        | raised =>
            exact absurd hr (hno (agent, role, word) (List.mem_cons_self _ _) he)
        | malformed =>
            refine ⟨((agent, (speechFallback round role).1) :: sps',
                     (agent, (speechFallback round role).2) :: rss'), ?_⟩
            unfold speechLoop
            rw [if_neg he, hr, speechStep_malformed, hpr]
        | parsed d =>
            refine ⟨((agent,
                (if d.speech.length < 10 then
                   d.speech ++
                     (if role = "平民" then civilianPad else undercoverPad)
                 else d.speech)) :: sps',
              (agent, d.reason) :: rss'), ?_⟩
            unfold speechLoop
            rw [if_neg he, hr, speechStep_parsed, hpr]

theorem speechLoop_raise_error {resp : String → LLMResp SpeechData}
    {round : Nat} {elim : List String} :
    ∀ l : List (String × String × String),
      (∃ item ∈ l, item.1 ∉ elim ∧ resp item.1 = .raised) →
      ∀ pr, speechLoop resp round elim l ≠ .ok pr := by
  intro l
  induction l with
  | nil => intro h; simp at h
  | cons hd rest ih =>
      intro h pr hok
      obtain ⟨agent, role, word⟩ := hd
      obtain ⟨item, hitem, hact, hr⟩ := h
      unfold speechLoop at hok
      rcases List.mem_cons.mp hitem with hi | hi
      · subst hi
        rw [if_neg hact, hr, speechStep_raised] at hok
        cases hok
      · by_cases he : agent ∈ elim
        · rw [if_pos he] at hok
          exact ih ⟨item, hi, hact, hr⟩ pr hok
        · rw [if_neg he] at hok
          cases hst : speechStep round role (resp agent) with
          | error e => rw [hst] at hok; cases hok
          | ok p =>
              obtain ⟨sp, rs⟩ := p
              rw [hst] at hok
              cases hrest : speechLoop resp round elim rest with
              | error e => rw [hrest] at hok; cases hok
              | ok pr' => exact ih ⟨item, hi, hact, hr⟩ pr' hrest

/-! ### Shape of the voting phase -/

theorem randomChoice_isSome {α : Type} {l : List α} (h : l ≠ []) (k : Nat) :
    ∃ x, randomChoice l k = some x := by
  unfold randomChoice
  have hlt : k % l.length < l.length :=
    Nat.mod_lt k (List.length_pos.mpr h)
  exact ⟨l[k % l.length], List.getElem?_eq_getElem hlt⟩

theorem mem_of_filter_ne {cur : List String} {agent v : String}
    (h : v ∈ cur.filter (fun a => !(a == agent))) : v ≠ agent ∧ v ∈ cur := by
  have := List.mem_filter.mp h
  refine ⟨?_, this.1⟩
  simpa using this.2

theorem voteStep_ok_legal {cur : List String} {agent : String} {round : Nat}
    {r : LLMResp VoteData} {rand : Nat → Nat} {ctr : Nat}
    {v rs : String} {c : Nat}
    (h : voteStep cur agent round r rand ctr = .ok ((v, rs), c)) :
    v ≠ agent ∧ v ∈ cur := by
  unfold voteStep at h
  cases hfe : voteTryExcept cur agent round r rand ctr with
  | error e => rw [hfe] at h; cases h
  | ok pr =>
      obtain ⟨⟨v0, rs0⟩, c0⟩ := pr
      rw [hfe] at h
      dsimp only at h
      by_cases hg : v0 = agent ∨ v0 ∉ cur
      · rw [if_pos hg] at h
        cases hrc : randomChoice (cur.filter (fun a => !(a == agent))) (rand c0) with
        | none => rw [hrc] at h; cases h
        | some v2 =>
            rw [hrc] at h
            cases h
            exact mem_of_filter_ne (randomChoice_mem hrc)
      · rw [if_neg hg] at h
        cases h
        push_neg at hg
        exact ⟨hg.1, hg.2⟩

theorem voteStep_raised (cur : List String) (agent : String) (round : Nat)
    (rand : Nat → Nat) (ctr : Nat) :
    voteStep cur agent round .raised rand ctr = .error .serviceError := rfl

theorem voteStep_malformed_sel {cur : List String} {agent : String}
    (round : Nat) {c : String} (ctr : Nat)
    (hc : c ∈ cur.filter (fun a => !(a == agent))) :
    ∃ k, voteStep cur agent round .malformed (fun _ => k) ctr =
      .ok ((c, voteFallbackReason round), ctr + 1) := by
  obtain ⟨k, hk⟩ := randomChoice_surj hc
  obtain ⟨hne, hmem⟩ := mem_of_filter_ne hc
  refine ⟨k, ?_⟩
  unfold voteStep voteTryExcept
  rw [hk]
  dsimp only
  rw [if_neg (by push_neg; exact ⟨hne, hmem⟩)]

theorem voteStep_illegal_sel {cur : List String} {agent : String}
    (round : Nat) {d : VoteData} {c : String} (ctr : Nat)
    (hbad : pyStrip d.vote = agent ∨ pyStrip d.vote ∉ cur)
    (hc : c ∈ cur.filter (fun a => !(a == agent))) :
    ∃ k, voteStep cur agent round (.parsed d) (fun _ => k) ctr =
      .ok ((c, d.reason), ctr + 1) := by
  obtain ⟨k, hk⟩ := randomChoice_surj hc
  refine ⟨k, ?_⟩
  unfold voteStep voteTryExcept
  dsimp only
  rw [if_pos hbad, hk]

theorem voteStep_no_raise_ok {cur : List String} {agent : String}
    {round : Nat} {r : LLMResp VoteData} {rand : Nat → Nat} {ctr : Nat}
    (hr : r ≠ .raised)
    (hne : cur.filter (fun a => !(a == agent)) ≠ []) :
    ∃ out, voteStep cur agent round r rand ctr = .ok out := by
  cases r with
  | raised => exact absurd rfl hr
  | malformed =>
      obtain ⟨v, hv⟩ := randomChoice_isSome hne (rand ctr)
      obtain ⟨hvne, hvmem⟩ := mem_of_filter_ne (randomChoice_mem hv)
      refine ⟨((v, voteFallbackReason round), ctr + 1), ?_⟩
      unfold voteStep voteTryExcept
      rw [hv]
      dsimp only
      rw [if_neg (by push_neg; exact ⟨hvne, hvmem⟩)]
  | parsed d =>
      by_cases hg : pyStrip d.vote = agent ∨ pyStrip d.vote ∉ cur
      · obtain ⟨v, hv⟩ := randomChoice_isSome hne (rand ctr)
        refine ⟨((v, d.reason), ctr + 1), ?_⟩
        unfold voteStep voteTryExcept
        dsimp only
        rw [if_pos hg, hv]
      · refine ⟨((pyStrip d.vote, d.reason), ctr), ?_⟩
        unfold voteStep voteTryExcept
        dsimp only
        rw [if_neg hg]

theorem voteLoop_entries {resp : String → LLMResp VoteData}
    {cur : List String} {round : Nat} {elim : List String}
    {rand : Nat → Nat} :
    ∀ {l : List (String × String × String)} {ctr : Nat}
      {vs rss : List (String × String)},
      voteLoop resp cur round elim rand l ctr = .ok (vs, rss) →
      vs.map (·.1) = (l.map (·.1)).filter (fun a => !(elim.contains a)) ∧
      ∀ p ∈ vs, p.2 ≠ p.1 ∧ p.2 ∈ cur := by
  intro l
  induction l with
  | nil =>
      intro ctr vs rss h
      unfold voteLoop at h
      cases h
      exact ⟨rfl, by simp⟩
  | cons hd rest ih =>
      intro ctr vs rss h
      obtain ⟨agent, role, word⟩ := hd
      unfold voteLoop at h
      by_cases he : agent ∈ elim
      · rw [if_pos he] at h
        obtain ⟨hkeys, hleg⟩ := ih h
        refine ⟨?_, hleg⟩
        rw [hkeys]
        simp [List.filter_cons, he]
      · rw [if_neg he] at h
        cases hst : voteStep cur agent round (resp agent) rand ctr with
        | error e => rw [hst] at h; cases h
        | ok pr =>
            obtain ⟨⟨v, rs⟩, c⟩ := pr
            rw [hst] at h
            dsimp only at h
            cases hrest : voteLoop resp cur round elim rand rest c with
            | error e => rw [hrest] at h; cases h
            | ok pr' =>
                obtain ⟨vs', rss'⟩ := pr'
                rw [hrest] at h
                cases h
                obtain ⟨hkeys, hleg⟩ := ih hrest
                refine ⟨?_, ?_⟩
                · simp only [List.map_cons]
                  rw [hkeys]
                  simp [List.filter_cons, he]
                · intro p hp
                  rcases List.mem_cons.mp hp with hp | hp
                  · subst hp
                    obtain ⟨h1, h2⟩ := voteStep_ok_legal hst
                    exact ⟨h1, h2⟩
                  · exact hleg p hp

theorem voteLoop_no_raise_ok {resp : String → LLMResp VoteData}
    {cur : List String} {round : Nat} {elim : List String}
    {rand : Nat → Nat} :
    ∀ (l : List (String × String × String)) (ctr : Nat),
      (∀ item ∈ l, item.1 ∉ elim → resp item.1 ≠ .raised) →
      (∀ item ∈ l, item.1 ∉ elim →
        cur.filter (fun a => !(a == item.1)) ≠ []) →
      ∃ pr, voteLoop resp cur round elim rand l ctr = .ok pr := by
  intro l
  induction l with
  | nil => intro ctr _ _; exact ⟨([], []), rfl⟩
  | cons hd rest ih =>
      intro ctr hno hne
      obtain ⟨agent, role, word⟩ := hd
      by_cases he : agent ∈ elim
      · obtain ⟨pr, hpr⟩ := ih ctr
          (fun item hi => hno item (List.mem_cons_of_mem _ hi))
          (fun item hi => hne item (List.mem_cons_of_mem _ hi))
        exact ⟨pr, by unfold voteLoop; rw [if_pos he]; exact hpr⟩
      · obtain ⟨⟨⟨v, rs⟩, c⟩, hst⟩ :=
          @voteStep_no_raise_ok cur agent round (resp agent) rand ctr
            (hno (agent, role, word) (List.mem_cons_self _ _) he)
            (hne (agent, role, word) (List.mem_cons_self _ _) he)
        obtain ⟨pr, hpr⟩ := ih c
          (fun item hi => hno item (List.mem_cons_of_mem _ hi))
          (fun item hi => hne item (List.mem_cons_of_mem _ hi))
        obtain ⟨vs', rss'⟩ := pr
        refine ⟨((agent, v) :: vs', (agent, rs) :: rss'), ?_⟩
        unfold voteLoop
        rw [if_neg he, hst]
        dsimp only
        rw [hpr]

theorem voteLoop_raise_error {resp : String → LLMResp VoteData}
    {cur : List String} {round : Nat} {elim : List String}
    {rand : Nat → Nat} :
    ∀ (l : List (String × String × String)) (ctr : Nat),
      (∃ item ∈ l, item.1 ∉ elim ∧ resp item.1 = .raised) →
      ∀ pr, voteLoop resp cur round elim rand l ctr ≠ .ok pr := by
  intro l
  induction l with
  | nil => intro ctr h; simp at h
  | cons hd rest ih =>
      intro ctr h pr hok
      obtain ⟨agent, role, word⟩ := hd
      obtain ⟨item, hitem, hact, hr⟩ := h
      unfold voteLoop at hok
      rcases List.mem_cons.mp hitem with hi | hi
      · subst hi
        rw [if_neg hact, hr, voteStep_raised] at hok
        cases hok
      · by_cases he : agent ∈ elim
        · rw [if_pos he] at hok
          exact ih ctr ⟨item, hi, hact, hr⟩ pr hok
        · rw [if_neg he] at hok
          cases hst : voteStep cur agent round (resp agent) rand ctr with
          | error e => rw [hst] at hok; cases hok
          | ok p =>
              obtain ⟨⟨v, rs⟩, c⟩ := p
              rw [hst] at hok
              dsimp only at hok
              cases hrest : voteLoop resp cur round elim rand rest c with
              | error e => rw [hrest] at hok; cases hok
              | ok pr' => exact ih c ⟨item, hi, hact, hr⟩ pr' hrest

theorem vote_undercover_ok {resp : String → String → LLMResp VoteData}
    {rand : Nat → Nat} {s s' : GameState}
    (h : vote_undercover resp rand s = .ok s') :
    s'.civilian_word = s.civilian_word ∧
    s'.undercover_word = s.undercover_word ∧
    s'.role_assignment = s.role_assignment ∧
    s'.speeches = s.speeches ∧
    s'.history_speeches = s.history_speeches ∧
    s'.speech_reasoning = s.speech_reasoning ∧
    s'.game_status = s.game_status ∧
    s'.winner = s.winner ∧
    s'.eliminated = s.eliminated ∧
    s'.round = s.round ∧
    voteLoop
        (resp (voteSpeechContext s.round s.speeches s.history_speeches
          (currentAgents s)))
        (currentAgents s) s.round s.eliminated rand s.role_assignment 0 =
      .ok (s'.votes, s'.vote_reasoning) := by
  unfold vote_undercover at h
  split at h
  · cases h
  · cases h
    refine ⟨rfl, rfl, rfl, rfl, rfl, rfl, rfl, rfl, rfl, rfl, ?_⟩
    assumption

/-! ### Shape of the judgment step -/

theorem judge_char {k : Nat} {s s' : GameState}
    (h : judge_result k s = .ok s') :
    ∃ e role word,
      randomChoice (tiedCandidates s.votes) k = some e ∧
      lookupA s.role_assignment e = some (role, word) ∧
      s'.civilian_word = s.civilian_word ∧
      s'.undercover_word = s.undercover_word ∧
      s'.role_assignment = s.role_assignment ∧
      s'.speeches = s.speeches ∧
      s'.history_speeches = s.history_speeches ∧
      s'.speech_reasoning = s.speech_reasoning ∧
      s'.votes = s.votes ∧
      s'.vote_reasoning = s.vote_reasoning ∧
      s'.eliminated = s.eliminated ++ [e] ∧
      (if role = "卧底" then
         s'.game_status = "end" ∧ s'.winner = "civilian" ∧ s'.round = s.round
       else if civAfter s.role_assignment s.eliminated e = 1 ∧
               ucAfter s.role_assignment s.eliminated e = 1 then
         s'.game_status = "end" ∧ s'.winner = "undercover" ∧ s'.round = s.round
       else
         s'.game_status = "running" ∧ s'.winner = s.winner ∧
           s'.round = s.round + 1) := by
  unfold judge_result at h
  split at h
  · cases h
  · cases hrc : randomChoice (tiedCandidates s.votes) k with
    | none => rw [hrc] at h; cases h
    | some e =>
        rw [hrc] at h
        dsimp only at h
        cases hl : lookupA s.role_assignment e with
        | none => rw [hl] at h; cases h
        | some rw0 =>
            obtain ⟨role, word⟩ := rw0
            rw [hl] at h
            dsimp only at h
            refine ⟨e, role, word, rfl, hl, ?_⟩
            by_cases h1 : role = "卧底"
            · rw [if_pos h1] at h
              cases h
              simp [h1]
            · rw [if_neg h1] at h
              by_cases h2 : civAfter s.role_assignment s.eliminated e = 1 ∧
                  ucAfter s.role_assignment s.eliminated e = 1
              · rw [if_pos h2] at h
                cases h
                simp [h1, h2]
              · rw [if_neg h2] at h
                cases h
                simp [h1, h2]

theorem judge_tally_ne {k : Nat} {s s' : GameState}
    (h : judge_result k s = .ok s') :
    ¬ tally (s.votes.map (·.2)) = [] := by
  intro he
  unfold judge_result at h
  rw [if_pos he] at h
  cases h

theorem judge_reaches {s : GameState} {a : String} {rv : String × String}
    (hvc : ¬ tally (s.votes.map (·.2)) = [])
    (ha : a ∈ tiedCandidates s.votes)
    (hl : lookupA s.role_assignment a = some rv) :
    ∃ k' s'', judge_result k' s = .ok s'' ∧
      s''.eliminated = s.eliminated ++ [a] := by
  obtain ⟨k', hk⟩ := randomChoice_surj ha
  refine ⟨k', ?_⟩
  unfold judge_result
  rw [if_neg hvc, hk]
  dsimp only
  obtain ⟨role, word⟩ := rv
  rw [hl]
  dsimp only
  by_cases h1 : role = "卧底"
  · rw [if_pos h1]
    exact ⟨_, rfl, rfl⟩
  · rw [if_neg h1]
    by_cases h2 : civAfter s.role_assignment s.eliminated a = 1 ∧
        ucAfter s.role_assignment s.eliminated a = 1
    · rw [if_pos h2]
      exact ⟨_, rfl, rfl⟩
    · rw [if_neg h2]
      exact ⟨_, rfl, rfl⟩

/-! ### The context strings ignore eliminated speakers -/

theorem roundLines_filter (elim : List String) (r : List (String × String)) :
    roundLines elim (r.filter (fun p => !(elim.contains p.1))) =
      roundLines elim r := by
  induction r with
  | nil => rfl
  | cons p rest ih =>
      obtain ⟨agent, speech⟩ := p
      by_cases he : agent ∈ elim
      · have hc : elim.contains agent = true := by simpa using he
        simp only [List.filter_cons, hc, Bool.not_true, roundLines, if_pos he]
        simpa [roundLines, hc] using ih
      · have hc : elim.contains agent = false := by simpa using he
        simp only [List.filter_cons, hc, Bool.not_false, roundLines]
        rw [ih]

theorem roundsBlock_filter (elim : List String) :
    ∀ (idx : Nat) (hist : List (List (String × String))),
      roundsBlock elim idx
          (hist.map (fun r => r.filter (fun p => !(elim.contains p.1)))) =
        roundsBlock elim idx hist := by
  intro idx hist
  induction hist generalizing idx with
  | nil => rfl
  | cons r rest ih =>
      simp only [List.map_cons, roundsBlock]
      rw [roundLines_filter, ih]

theorem historyContext_filter (hist : List (List (String × String)))
    (elim : List String) :
    historyContext
        (hist.map (fun r => r.filter (fun p => !(elim.contains p.1)))) elim =
      historyContext hist elim := by
  unfold historyContext
  by_cases hh : hist = []
  · subst hh; rfl
  · rw [if_neg (by simpa using hh), if_neg hh, roundsBlock_filter]

theorem voteHistLines_filter {cur elim : List String}
    (hdisj : ∀ a ∈ elim, a ∉ cur) (r : List (String × String)) :
    voteHistLines cur (r.filter (fun p => !(elim.contains p.1))) =
      voteHistLines cur r := by
  induction r with
  | nil => rfl
  | cons p rest ih =>
      obtain ⟨agent, speech⟩ := p
      by_cases he : agent ∈ elim
      · have hc : elim.contains agent = true := by simpa using he
        have hcur : cur.contains agent = false := by
          simpa using hdisj agent he
        simp only [List.filter_cons, hc, Bool.not_true, voteHistLines, hcur]
        simpa using ih
      · have hc : elim.contains agent = false := by simpa using he
        simp only [List.filter_cons, hc, Bool.not_false, voteHistLines]
        rw [ih]

theorem voteHistBlock_filter {cur elim : List String}
    (hdisj : ∀ a ∈ elim, a ∉ cur) :
    ∀ (idx : Nat) (hist : List (List (String × String))),
      voteHistBlock cur idx
          (hist.map (fun r => r.filter (fun p => !(elim.contains p.1)))) =
        voteHistBlock cur idx hist := by
  intro idx hist
  induction hist generalizing idx with
  | nil => rfl
  | cons r rest ih =>
      simp only [List.map_cons, voteHistBlock]
      rw [voteHistLines_filter hdisj, ih]

theorem eliminated_not_current (s : GameState) :
    ∀ a ∈ s.eliminated, a ∉ currentAgents s := by
  intro a ha hcur
  unfold currentAgents currentAgentsL at hcur
  have := List.mem_filter.mp hcur
  simp at this
  exact this.2 ha

/-! ### Counting active agents by role -/

theorem lookupA_mem {α : Type} {l : List (String × α)} {a : String} {v : α}
    (h : lookupA l a = some v) : (a, v) ∈ l := by
  induction l with
  | nil => cases h
  | cons p rest ih =>
      unfold lookupA at h
      by_cases hp : p.1 = a
      · rw [if_pos hp] at h
        cases h
        have hpa : (a, p.2) = p := by rw [← hp]
        rw [hpa]
        exact List.mem_cons_self _ _
      · rw [if_neg hp] at h
        exact List.mem_cons_of_mem _ (ih h)

theorem filter_ne_of_not_mem {l : List String} {e : String} (h : e ∉ l) :
    l.filter (fun a => !(a == e)) = l := by
  induction l with
  | nil => rfl
  | cons b rest ih =>
      have hbe : b ≠ e := fun hb => h (hb ▸ List.mem_cons_self _ _)
      have := ih (fun hm => h (List.mem_cons_of_mem _ hm))
      simp [List.filter_cons, hbe, this]

theorem countP_filter_ne {l : List String} (p : String → Bool) :
    ∀ {e : String}, l.Nodup → e ∈ l →
      (l.filter (fun a => !(a == e))).countP p + (if p e then 1 else 0) =
        l.countP p := by
  induction l with
  | nil => intro e _ he; simp at he
  | cons b rest ih =>
      intro e hnd he
      rw [List.nodup_cons] at hnd
      by_cases hbe : b = e
      · subst hbe
        have hpred : (!(b == b)) = false := by simp
        rw [List.filter_cons, hpred, if_neg (by simp),
            filter_ne_of_not_mem hnd.1, List.countP_cons]
      · have hpred : (!(b == e)) = true := by simp [hbe]
        rcases List.mem_cons.mp he with h | h
        · exact absurd h.symm hbe
        · rw [List.filter_cons, hpred, if_pos rfl, List.countP_cons,
              List.countP_cons]
          rw [← ih hnd.2 h]
          omega

theorem remainingAfter_eq (ra : List (String × String × String))
    (elim : List String) (e : String) :
    remainingAfter ra elim e =
      (currentAgentsL ra elim).filter (fun a => !(a == e)) := by
  unfold remainingAfter currentAgentsL
  rw [List.filter_filter]
  apply List.filter_congr
  intro a _
  by_cases h1 : a ∈ elim <;> by_cases h2 : a = e <;> simp [h1, h2]

theorem civAfter_count {ra : List (String × String × String)}
    {elim : List String} {e : String}
    (hnd : (currentAgentsL ra elim).Nodup)
    (he : e ∈ currentAgentsL ra elim) :
    civAfter ra elim e +
        (if roleOf ra e == some "平民" then 1 else 0) =
      civActive ra elim := by
  unfold civAfter civActive
  rw [show (remainingAfter ra elim e).countP
        (fun a => roleOf ra a == some "平民") =
      ((currentAgentsL ra elim).filter (fun a => !(a == e))).countP
        (fun a => roleOf ra a == some "平民") from by
    rw [remainingAfter_eq]]
  exact countP_filter_ne _ hnd he

theorem ucAfter_count {ra : List (String × String × String)}
    {elim : List String} {e : String}
    (hnd : (currentAgentsL ra elim).Nodup)
    (he : e ∈ currentAgentsL ra elim) :
    ucAfter ra elim e +
        (if roleOf ra e == some "卧底" then 1 else 0) =
      ucActive ra elim := by
  unfold ucAfter ucActive
  rw [show (remainingAfter ra elim e).countP
        (fun a => roleOf ra a == some "卧底") =
      ((currentAgentsL ra elim).filter (fun a => !(a == e))).countP
        (fun a => roleOf ra a == some "卧底") from by
    rw [remainingAfter_eq]]
  exact countP_filter_ne _ hnd he

/-! ### Role assignment facts -/

theorem chosenUndercover_mem (k : Nat) : chosenUndercover k ∈ agents :=
  choiceNE_mem agents (by decide) k

theorem chosenUndercover_surj {a : String} (ha : a ∈ agents) :
    ∃ k, chosenUndercover k = a :=
  choiceNE_surj (by decide) ha

theorem assign_roles_fields (k : Nat) (s : GameState) :
    (assign_roles k s).civilian_word = s.civilian_word ∧
    (assign_roles k s).undercover_word = s.undercover_word ∧
    (assign_roles k s).speeches = s.speeches ∧
    (assign_roles k s).history_speeches = s.history_speeches ∧
    (assign_roles k s).speech_reasoning = s.speech_reasoning ∧
    (assign_roles k s).votes = s.votes ∧
    (assign_roles k s).vote_reasoning = s.vote_reasoning ∧
    (assign_roles k s).game_status = s.game_status ∧
    (assign_roles k s).winner = s.winner ∧
    (assign_roles k s).eliminated = s.eliminated ∧
    (assign_roles k s).round = s.round :=
  ⟨rfl, rfl, rfl, rfl, rfl, rfl, rfl, rfl, rfl, rfl, rfl⟩

theorem assign_roles_ra {k : Nat} {s : GameState}
    (h : s.role_assignment = []) :
    (assign_roles k s).role_assignment =
      raOf (chosenUndercover k) s.civilian_word s.undercover_word := by
  unfold assign_roles raOf
  rw [h]
  simp [agents, dictInsert]

theorem raOf_keys (u cw uw : String) :
    (raOf u cw uw).map (·.1) = agents := by
  simp only [raOf, List.map_map]
  exact List.map_id' agents

theorem lookupA_raOf {u : String} (cw uw : String) {e : String}
    (he : e ∈ agents) :
    lookupA (raOf u cw uw) e =
      some (if e = u then ("卧底", uw) else ("平民", cw)) := by
  unfold raOf
  rw [lookupA_map_fn, if_pos he]

theorem roleOf_raOf (u cw uw e : String) :
    roleOf (raOf u cw uw) e =
      if e ∈ agents then some (if e = u then "卧底" else "平民")
      else none := by
  unfold roleOf raOf
  rw [lookupA_map_fn]
  by_cases he : e ∈ agents
  · rw [if_pos he, if_pos he]
    by_cases hu : e = u
    · rw [if_pos hu, if_pos hu]
      rfl
    · rw [if_neg hu, if_neg hu]
      rfl
  · rw [if_neg he, if_neg he]
    rfl

theorem raOf_binary (u cw uw : String) :
    ∀ p ∈ raOf u cw uw, p.2.1 = "平民" ∨ p.2.1 = "卧底" := by
  intro p hp
  obtain ⟨a, _, hap⟩ := List.mem_map.mp hp
  subst hap
  by_cases hu : a = u
  · exact .inr (by simp [hu])
  · exact .inl (by simp [hu])

theorem raOf_counts {u : String} (hu : u ∈ agents) (cw uw : String) :
    civActive (raOf u cw uw) [] = 3 ∧ ucActive (raOf u cw uw) [] = 1 := by
  rcases (show u = "agent1" ∨ u = "agent2" ∨ u = "agent3" ∨ u = "agent4" by
    simpa [agents] using hu) with rfl | rfl | rfl | rfl <;>
    constructor <;>
    · simp only [civActive, ucActive, currentAgentsL, raOf_keys, roleOf_raOf]
      decide

theorem raOf_keys_nodup (u cw uw : String) :
    ((raOf u cw uw).map (·.1)).Nodup := by
  rw [raOf_keys]
  decide

/-! ### Shape of the word phase and of a full cycle -/

theorem generate_words_ok {resp : LLMResp WordData} {k : Nat}
    {s s' : GameState} (h : generate_words resp k s = .ok s') :
    s'.role_assignment = s.role_assignment ∧
    s'.speeches = s.speeches ∧
    s'.history_speeches = s.history_speeches ∧
    s'.speech_reasoning = s.speech_reasoning ∧
    s'.votes = s.votes ∧
    s'.vote_reasoning = s.vote_reasoning ∧
    s'.game_status = s.game_status ∧
    s'.winner = s.winner ∧
    s'.eliminated = s.eliminated ∧
    s'.round = s.round := by
  cases resp with
  | raised => cases h
  | malformed =>
      unfold generate_words at h
      cases hrc : randomChoice fallback_pairs k with
      | none => rw [hrc] at h; cases h
      | some p =>
          obtain ⟨c, u⟩ := p
          rw [hrc] at h
          cases h
          exact ⟨rfl, rfl, rfl, rfl, rfl, rfl, rfl, rfl, rfl, rfl⟩
  | parsed w =>
      cases h
      exact ⟨rfl, rfl, rfl, rfl, rfl, rfl, rfl, rfl, rfl, rfl⟩

theorem roundStep_progress {o : Oracles} {s s' : GameState}
    (hnd : (s.role_assignment.map (·.1)).Nodup)
    (hbin : ∀ p ∈ s.role_assignment, p.2.1 = "平民" ∨ p.2.1 = "卧底")
    (h : roundStep o s = .ok s') :
    s'.role_assignment = s.role_assignment ∧
    s'.eliminated.length = s.eliminated.length + 1 ∧
    ((s'.game_status = "end" ∧ s'.round = s.round) ∨
     (s'.game_status = "running" ∧ s'.round = s.round + 1 ∧
       ucActive s'.role_assignment s'.eliminated =
         ucActive s.role_assignment s.eliminated ∧
       civActive s'.role_assignment s'.eliminated + 1 =
         civActive s.role_assignment s.eliminated ∧
       ¬(civActive s'.role_assignment s'.eliminated = 1 ∧
         ucActive s'.role_assignment s'.eliminated = 1))) := by
  unfold roundStep at h
  cases h1 : generate_speeches (o.speech s.round) s with
  | error e => rw [h1] at h; cases h
  | ok s1 =>
      rw [h1] at h
      dsimp only at h
      cases h2 : vote_undercover (o.vote s1.round) (o.voteRand s1.round) s1 with
      | error e => rw [h2] at h; cases h
      | ok s2 =>
          rw [h2] at h
          dsimp only at h
          obtain ⟨_, _, hra1, _, _, _, _, helim1, hround1, _, _⟩ :=
            generate_speeches_ok h1
          obtain ⟨_, _, hra2, _, _, _, _, _, helim2, hround2, hloop⟩ :=
            vote_undercover_ok h2
          obtain ⟨hkeys, hleg⟩ := voteLoop_entries hloop
          obtain ⟨e, role, word, hrc, hlook, _, _, hra3, _, _, _, hvotes3,
            _, helim3, hbranch⟩ := judge_char h
          -- the eliminated agent is an active agent of the original state
          have hemem : e ∈ s2.votes.map (·.2) :=
            tiedCandidates_sub (randomChoice_mem hrc)
          obtain ⟨p, hp, hpe⟩ := List.mem_map.mp hemem
          have hecur : e ∈ currentAgentsL s.role_assignment s.eliminated := by
            have := (hleg p hp).2
            unfold currentAgents at this
            rw [hra1, helim1] at this
            exact hpe ▸ this
          -- role of the eliminated agent in the original assignment
          have hra2s : s2.role_assignment = s.role_assignment := by
            rw [hra2, hra1]
          have helim2s : s2.eliminated = s.eliminated := by
            rw [helim2, helim1]
          have hround2s : s2.round = s.round := by rw [hround2, hround1]
          have hlooks : lookupA s.role_assignment e = some (role, word) := by
            rw [← hra2s]; exact hlook
          have hrole : roleOf s.role_assignment e = some role := by
            unfold roleOf; rw [hlooks]; rfl
          have hbinrole : role = "平民" ∨ role = "卧底" :=
            hbin (e, role, word) (lookupA_mem hlooks)
          have hras : s'.role_assignment = s.role_assignment := by
            rw [hra3, hra2s]
          have helims : s'.eliminated = s.eliminated ++ [e] := by
            rw [helim3, helim2s]
          have hlen : s'.eliminated.length = s.eliminated.length + 1 := by
            rw [helims]; simp
          refine ⟨hras, hlen, ?_⟩
          by_cases hrl : role = "卧底"
          · rw [if_pos hrl] at hbranch
            exact .inl ⟨hbranch.1, by rw [hbranch.2.2, hround2s]⟩
          · rw [if_neg hrl] at hbranch
            have hciv : role = "平民" := hbinrole.resolve_right hrl
            subst hciv
            by_cases hcu : civAfter s2.role_assignment s2.eliminated e = 1 ∧
                ucAfter s2.role_assignment s2.eliminated e = 1
            · rw [if_pos hcu] at hbranch
              exact .inl ⟨hbranch.1, by rw [hbranch.2.2, hround2s]⟩
            · rw [if_neg hcu] at hbranch
              rw [hra2s, helim2s] at hcu
              have hndcur : (currentAgentsL s.role_assignment
                  s.eliminated).Nodup := List.Nodup.filter _ hnd
              have hcivafter :
                  civActive s'.role_assignment s'.eliminated =
                    civAfter s.role_assignment s.eliminated e := by
                rw [hras, helims]; rfl
              have hucafter :
                  ucActive s'.role_assignment s'.eliminated =
                    ucAfter s.role_assignment s.eliminated e := by
                rw [hras, helims]; rfl
              have hcivrel := civAfter_count hndcur hecur
              have hucrel := ucAfter_count hndcur hecur
              rw [hrole] at hcivrel hucrel
              have hone : (if (some "平民" == some "平民") then 1 else 0) = 1 :=
                by decide
              have hzero : (if (some "平民" == some "卧底") then 1 else 0) = 0 :=
                by decide
              rw [hone] at hcivrel
              rw [hzero, Nat.add_zero] at hucrel
              refine .inr ⟨hbranch.1, ?_, ?_, ?_, ?_⟩
              · rw [hbranch.2.2, hround2s]
              · rw [hucafter, hucrel]
              · rw [hcivafter, hcivrel]
              · rw [hcivafter, hucafter]
                exact hcu

theorem runLoop_end {o : Oracles} {s : GameState}
    (h : ¬ s.game_status = "running") : ∀ n, runLoop o n s = .ok s := by
  intro n
  cases n with
  | zero => rfl
  | succ m => unfold runLoop; rw [if_neg h]

theorem roundStep_round {o : Oracles} {s s1 : GameState}
    (h : roundStep o s = .ok s1) :
    s1.round = s.round ∨ s1.round = s.round + 1 := by
  unfold roundStep at h
  cases h1 : generate_speeches (o.speech s.round) s with
  | error e => rw [h1] at h; cases h
  | ok sa =>
      rw [h1] at h
      dsimp only at h
      cases h2 : vote_undercover (o.vote sa.round) (o.voteRand sa.round) sa with
      | error e => rw [h2] at h; cases h
      | ok sb =>
          rw [h2] at h
          dsimp only at h
          have hr1 := (generate_speeches_ok h1).2.2.2.2.2.2.2.2.1
          have hr2 := (vote_undercover_ok h2).2.2.2.2.2.2.2.2.2.1
          obtain ⟨e, role, word, _, _, _, _, _, _, _, _, _, _, _,
            hbranch⟩ := judge_char h
          by_cases hrl : role = "卧底"
          · rw [if_pos hrl] at hbranch
            exact .inl (by rw [hbranch.2.2, hr2, hr1])
          · rw [if_neg hrl] at hbranch
            by_cases hcu : civAfter sb.role_assignment sb.eliminated e = 1 ∧
                ucAfter sb.role_assignment sb.eliminated e = 1
            · rw [if_pos hcu] at hbranch
              exact .inl (by rw [hbranch.2.2, hr2, hr1])
            · rw [if_neg hcu] at hbranch
              exact .inr (by rw [hbranch.2.2, hr2, hr1])

theorem runLoop_round_mono {o : Oracles} :
    ∀ (n : Nat) (s s' : GameState),
      runLoop o n s = .ok s' → s.round ≤ s'.round := by
  intro n
  induction n with
  | zero => intro s s' h; cases h; exact Nat.le_refl _
  | succ m ih =>
      intro s s' h
      unfold runLoop at h
      by_cases hst : s.game_status = "running"
      · rw [if_pos hst] at h
        cases hstep : roundStep o s with
        | error e => rw [hstep] at h; cases h
        | ok s1 =>
            rw [hstep] at h
            dsimp only at h
            have h1 := roundStep_round hstep
            have h2 := ih s1 s' h
            rcases h1 with h1 | h1 <;> omega
      · rw [if_neg hst] at h
        cases h
        exact Nat.le_refl _

theorem runLoop_bound {o : Oracles} :
    ∀ (n : Nat) (s s' : GameState),
      (s.role_assignment.map (·.1)).Nodup →
      (∀ p ∈ s.role_assignment, p.2.1 = "平民" ∨ p.2.1 = "卧底") →
      civActive s.role_assignment s.eliminated = 3 →
      ucActive s.role_assignment s.eliminated = 1 →
      s.game_status = "running" →
      runLoop o (n + 2) s = .ok s' →
      s'.game_status = "end" ∧
      s'.eliminated.length ≤ s.eliminated.length + 2 ∧
      s'.round ≤ s.round + 1 := by
  intro n s s' hnd hbin hciv huc hst h
  unfold runLoop at h
  rw [if_pos hst] at h
  cases hstep : roundStep o s with
  | error e => rw [hstep] at h; cases h
  | ok s1 =>
      rw [hstep] at h
      dsimp only at h
      obtain ⟨hra1, hlen1, hcase1⟩ := roundStep_progress hnd hbin hstep
      rcases hcase1 with ⟨hend1, hround1⟩ | ⟨hrun1, hround1, huc1, hciv1, hne1⟩
      · have hne : ¬ s1.game_status = "running" := by rw [hend1]; decide
        rw [runLoop_end hne] at h
        cases h
        exact ⟨hend1, by omega, by omega⟩
      · unfold runLoop at h
        rw [if_pos hrun1] at h
        cases hstep2 : roundStep o s1 with
        | error e => rw [hstep2] at h; cases h
        | ok s2 =>
            rw [hstep2] at h
            dsimp only at h
            have hnd1 : (s1.role_assignment.map (·.1)).Nodup := by
              rw [hra1]; exact hnd
            have hbin1 : ∀ p ∈ s1.role_assignment,
                p.2.1 = "平民" ∨ p.2.1 = "卧底" := by
              rw [hra1]; exact hbin
            obtain ⟨hra2, hlen2, hcase2⟩ :=
              roundStep_progress hnd1 hbin1 hstep2
            rcases hcase2 with ⟨hend2, hround2⟩ |
              ⟨hrun2, hround2, huc2, hciv2, hne2⟩
            · have hne : ¬ s2.game_status = "running" := by rw [hend2]; decide
              rw [runLoop_end hne] at h
              cases h
              exact ⟨hend2, by omega, by omega⟩
            · exact absurd ⟨by omega, by omega⟩ hne2

theorem judge_progress {k : Nat} {s s' : GameState}
    (hnd : (s.role_assignment.map (·.1)).Nodup)
    (hbin : ∀ p ∈ s.role_assignment, p.2.1 = "平民" ∨ p.2.1 = "卧底")
    (ht : ∀ v ∈ s.votes.map (·.2), v ∈ currentAgents s)
    (h : judge_result k s = .ok s') :
    s'.game_status = "end" ∨
      civActive s'.role_assignment s'.eliminated + 1 =
        civActive s.role_assignment s.eliminated := by
  obtain ⟨e, role, word, hrc, hlook, _, _, hra3, _, _, _, _, _, helim3,
    hbranch⟩ := judge_char h
  by_cases hrl : role = "卧底"
  · rw [if_pos hrl] at hbranch
    exact .inl hbranch.1
  · rw [if_neg hrl] at hbranch
    by_cases hcu : civAfter s.role_assignment s.eliminated e = 1 ∧
        ucAfter s.role_assignment s.eliminated e = 1
    · rw [if_pos hcu] at hbranch
      exact .inl hbranch.1
    · refine .inr ?_
      have hecur : e ∈ currentAgentsL s.role_assignment s.eliminated := by
        have hemem : e ∈ s.votes.map (·.2) :=
          tiedCandidates_sub (randomChoice_mem hrc)
        exact ht e hemem
      have hrole : roleOf s.role_assignment e = some role := by
        unfold roleOf; rw [hlook]; rfl
      have hpl : role = "平民" :=
        (hbin (e, role, word) (lookupA_mem hlook)).resolve_right hrl
      subst hpl
      have hndcur : (currentAgentsL s.role_assignment s.eliminated).Nodup :=
        List.Nodup.filter _ hnd
      have hcivrel := civAfter_count hndcur hecur
      rw [hrole] at hcivrel
      have hone : (if (some "平民" == some "平民") then 1 else 0) = 1 := by
        decide
      rw [hone] at hcivrel
      have hca : civActive s'.role_assignment s'.eliminated =
          civAfter s.role_assignment s.eliminated e := by
        rw [hra3, helim3]; rfl
      rw [hca]
      exact hcivrel

/-! ## Claim theorems -/

/-- C1: on a judgment call in a running game, the eliminated agent is
appended to `eliminated`, and the win conditions are evaluated in source
order: if the eliminated agent held the minority role (`卧底`), the game
ends with `winner = "civilian"` (the majority side); otherwise, if exactly
one majority-holder and one minority-holder remain active after the
elimination, the game ends with `winner = "undercover"` (the minority
side); otherwise the game stays `running`. -/
theorem judge_win_conditions_ordered {k : Nat} {s s' : GameState}
    (hrun : s.game_status = "running")
    (h : judge_result k s = .ok s') :
    ∃ e role word,
      s'.eliminated = s.eliminated ++ [e] ∧
      lookupA s.role_assignment e = some (role, word) ∧
      (if role = "卧底" then
         s'.game_status = "end" ∧ s'.winner = "civilian"
       else if civAfter s.role_assignment s.eliminated e = 1 ∧
               ucAfter s.role_assignment s.eliminated e = 1 then
         s'.game_status = "end" ∧ s'.winner = "undercover"
       else
         s'.game_status = "running" ∧ s'.round = s.round + 1) := by
  obtain ⟨e, role, word, _, hl, _, _, _, _, _, _, _, _, helim, hb⟩ :=
    judge_char h
  refine ⟨e, role, word, helim, hl, ?_⟩
  by_cases h1 : role = "卧底"
  · rw [if_pos h1] at hb ⊢
    exact ⟨hb.1, hb.2.1⟩
  · rw [if_neg h1] at hb ⊢
    by_cases h2 : civAfter s.role_assignment s.eliminated e = 1 ∧
        ucAfter s.role_assignment s.eliminated e = 1
    · rw [if_pos h2] at hb ⊢
      exact ⟨hb.1, hb.2.1⟩
    · rw [if_neg h2] at hb ⊢
      exact ⟨hb.1, hb.2.2⟩

/-- Witness for C1 at a concrete judgment: in `sJudge` everyone votes
`agent2`, a majority holder, and two majority-holders plus the minority
remain, so the game continues with the round bumped. -/
theorem judge_win_conditions_ordered_witness :
    (judge_result 0 sJudge).isOk = true ∧
    (okState (judge_result 0 sJudge)).game_status = "running" ∧
    (okState (judge_result 0 sJudge)).round = sJudge.round + 1 := by
  have h : judge_result 0 sJudge = .ok (okState (judge_result 0 sJudge)) := rfl
  obtain ⟨e, role, word, helim, hl, hcond⟩ :=
    judge_win_conditions_ordered rfl h
  have h4 : ["agent2"] = [e] := helim
  have he : e = "agent2" := (List.cons.inj h4).1.symm
  subst he
  have h5 : (some (("平民" : String), ("奶茶" : String))) = some (role, word) :=
    hl
  obtain ⟨hr, hw⟩ := Prod.mk.inj (Option.some.inj h5)
  subst hr
  rw [if_neg (by decide), if_neg (by decide)] at hcond
  exact ⟨rfl, hcond.1, hcond.2⟩

/-- C4: a judgment that leaves the game running increments `round` by
exactly 1, a judgment that ends the game leaves `round` unchanged, and
`round` never decreases across a judgment nor across any run of the game
loop. -/
theorem round_counter_monotone :
    (∀ (k : Nat) (s s' : GameState), judge_result k s = .ok s' →
       (s'.game_status = "running" → s'.round = s.round + 1) ∧
       (s'.game_status = "end" → s'.round = s.round) ∧
       s.round ≤ s'.round) ∧
    (∀ (o : Oracles) (n : Nat) (s s' : GameState),
       runLoop o n s = .ok s' → s.round ≤ s'.round) := by
  constructor
  · intro k s s' h
    obtain ⟨e, role, word, _, _, _, _, _, _, _, _, _, _, _, hb⟩ :=
      judge_char h
    by_cases h1 : role = "卧底"
    · rw [if_pos h1] at hb
      obtain ⟨hst, _, hrd⟩ := hb
      refine ⟨?_, fun _ => hrd, by omega⟩
      intro hrun
      rw [hst] at hrun
      exact absurd hrun (by decide)
    · rw [if_neg h1] at hb
      by_cases h2 : civAfter s.role_assignment s.eliminated e = 1 ∧
          ucAfter s.role_assignment s.eliminated e = 1
      · rw [if_pos h2] at hb
        obtain ⟨hst, _, hrd⟩ := hb
        refine ⟨?_, fun _ => hrd, by omega⟩
        intro hrun
        rw [hst] at hrun
        exact absurd hrun (by decide)
      · rw [if_neg h2] at hb
        obtain ⟨hst, _, hrd⟩ := hb
        refine ⟨fun _ => hrd, ?_, by omega⟩
        intro hend
        rw [hst] at hend
        exact absurd hend (by decide)
  · intro o n s s' h
    exact runLoop_round_mono n s s' h

/-- Witness for C4: the concrete judgment on `sJudge` continues the game
and bumps the round, and a one-cycle run of the loop from `sAssigned` does
not decrease the round. -/
theorem round_counter_monotone_witness :
    (judge_result 0 sJudge).isOk = true ∧
    (okState (judge_result 0 sJudge)).round = sJudge.round + 1 ∧
    (runLoop oDemo 1 sAssigned).isOk = true ∧
    sAssigned.round ≤ (okState (runLoop oDemo 1 sAssigned)).round := by
  have h : judge_result 0 sJudge = .ok (okState (judge_result 0 sJudge)) := rfl
  have h2 : runLoop oDemo 1 sAssigned =
      .ok (okState (runLoop oDemo 1 sAssigned)) := rfl
  refine ⟨rfl, ?_, rfl, round_counter_monotone.2 oDemo 1 sAssigned _ h2⟩
  have := (round_counter_monotone.1 0 sJudge _ h).1
  exact this rfl

/-- C5: the eliminated agent of a judgment is one of the candidates tied at
the maximum vote count — its tally entry equals the maximum, which bounds
every tally count — and, provided every vote target is a known agent,
every tied candidate is reachable under some random seed, so no tied
candidate is excluded by construction. -/
theorem elimination_max_votes_uniform {k : Nat} {s s' : GameState}
    (h : judge_result k s = .ok s')
    (ht : ∀ v ∈ s.votes.map (·.2), v ∈ s.role_assignment.map (·.1)) :
    ∃ e, s'.eliminated = s.eliminated ++ [e] ∧
      e ∈ tiedCandidates s.votes ∧
      lookupA (tally (s.votes.map (·.2))) e =
        some (listMax ((tally (s.votes.map (·.2))).map (·.2))) ∧
      (∀ p ∈ tally (s.votes.map (·.2)),
        p.2 ≤ listMax ((tally (s.votes.map (·.2))).map (·.2))) ∧
      (∀ a ∈ tiedCandidates s.votes,
        ∃ k' s'', judge_result k' s = .ok s'' ∧
          s''.eliminated = s.eliminated ++ [a]) := by
  obtain ⟨e, role, word, hrc, hl, _, _, _, _, _, _, _, _, helim, _⟩ :=
    judge_char h
  have hetied : e ∈ tiedCandidates s.votes := randomChoice_mem hrc
  refine ⟨e, helim, hetied, tiedCandidates_count hetied, ?_, ?_⟩
  · intro p hp
    exact le_listMax (List.mem_map_of_mem (·.2) hp)
  · intro a ha
    have hamem : a ∈ s.role_assignment.map (·.1) :=
      ht a (tiedCandidates_sub ha)
    obtain ⟨rv, hrv⟩ := lookupA_isSome_of_mem_keys hamem
    exact judge_reaches (judge_tally_ne h) ha hrv

/-- Witness for C5 at the concrete judgment on `sJudge`: `agent2` is the
unique tied candidate and is eliminated. -/
theorem elimination_max_votes_uniform_witness :
    (judge_result 0 sJudge).isOk = true ∧
    (okState (judge_result 0 sJudge)).eliminated = ["agent2"] ∧
    "agent2" ∈ tiedCandidates sJudge.votes := by
  have h : judge_result 0 sJudge = .ok (okState (judge_result 0 sJudge)) := rfl
  obtain ⟨e, helim, hetied, _, _, _⟩ :=
    elimination_max_votes_uniform h (by decide)
  have h4 : ["agent2"] = [e] := helim
  have he : e = "agent2" := (List.cons.inj h4).1.symm
  subst he
  exact ⟨rfl, rfl, hetied⟩

/-- C3: every vote recorded by the voting phase targets an agent distinct
from the voter and active at the start of the phase; and whenever the
response is unparseable, or parses to a self-vote or to a target outside
the active agents, the recorded vote is drawn by `random.choice` from the
active agents excluding the voter, with every such candidate reachable
under some seed. -/
theorem vote_legality :
    (∀ (resp : String → String → LLMResp VoteData) (rand : Nat → Nat)
       (s s' : GameState), vote_undercover resp rand s = .ok s' →
       ∀ p ∈ s'.votes, p.2 ≠ p.1 ∧ p.2 ∈ currentAgents s) ∧
    (∀ (cur : List String) (agent : String) (round : Nat) (c : String)
       (ctr : Nat), c ∈ cur.filter (fun a => !(a == agent)) →
       ∃ k, voteStep cur agent round .malformed (fun _ => k) ctr =
         .ok ((c, voteFallbackReason round), ctr + 1)) ∧
    (∀ (cur : List String) (agent : String) (round : Nat) (d : VoteData)
       (c : String) (ctr : Nat),
       (pyStrip d.vote = agent ∨ pyStrip d.vote ∉ cur) →
       c ∈ cur.filter (fun a => !(a == agent)) →
       ∃ k, voteStep cur agent round (.parsed d) (fun _ => k) ctr =
         .ok ((c, d.reason), ctr + 1)) := by
  refine ⟨?_, ?_, ?_⟩
  · intro resp rand s s' h p hp
    obtain ⟨_, _, _, _, _, _, _, _, _, _, hloop⟩ := vote_undercover_ok h
    exact (voteLoop_entries hloop).2 p hp
  · intro cur agent round c ctr hc
    exact voteStep_malformed_sel round ctr hc
  · intro cur agent round d c ctr hbad hc
    exact voteStep_illegal_sel round ctr hbad hc

/-- Witness for C3: in the concrete voting phase on `sAssigned`, `agent2`
answers with a self-vote and ends up voting `agent1` — a legal target —
and both fallback selectors reach the explicit candidate `agent2` of the
filtered list `["agent2"]`. -/
theorem vote_legality_witness :
    (vote_undercover respVoteDemo (fun _ => 0) sAssigned).isOk = true ∧
    ("agent2", "agent1") ∈
      (okState (vote_undercover respVoteDemo (fun _ => 0) sAssigned)).votes ∧
    "agent1" ≠ "agent2" ∧ "agent1" ∈ currentAgents sAssigned ∧
    voteStep ["agent1", "agent2"] "agent1" 1 .malformed (fun _ => 0) 0 =
      .ok (("agent2", voteFallbackReason 1), 1) ∧
    voteStep ["agent1", "agent2"] "agent1" 1
        (.parsed ⟨"agent1", "r"⟩) (fun _ => 0) 0 =
      .ok (("agent2", "r"), 1) := by
  have h : vote_undercover respVoteDemo (fun _ => 0) sAssigned =
      .ok (okState (vote_undercover respVoteDemo (fun _ => 0) sAssigned)) :=
    rfl
  have hmem : ("agent2", "agent1") ∈
      (okState (vote_undercover respVoteDemo (fun _ => 0) sAssigned)).votes :=
    by decide
  obtain ⟨hne, hcur⟩ := vote_legality.1 respVoteDemo (fun _ => 0) sAssigned _
    h ("agent2", "agent1") hmem
  obtain ⟨k1, hk1⟩ := vote_legality.2.1 ["agent1", "agent2"] "agent1" 1
    "agent2" 0 (by decide)
  obtain ⟨k2, hk2⟩ := vote_legality.2.2 ["agent1", "agent2"] "agent1" 1
    ⟨"agent1", "r"⟩ "agent2" 0 (by decide) (by decide)
  exact ⟨rfl, hmem, hne, hcur, rfl, rfl⟩

/-- C6: when the speech phase completes, every active agent (and only
active agents) has a `currentSpeeches` entry, every entry is non-empty, a
parse failure substitutes the deterministic role- and round-parameterized
fallback statement, a parsed speech shorter than 10 characters has the
role-specific boilerplate appended (so the original text is kept as a
prefix, never truncated), and a speech of length at least 10 — however
long — is recorded verbatim. -/
theorem speech_repair_policy {resp : String → String → LLMResp SpeechData}
    {s s' : GameState}
    (hnd : (s.role_assignment.map (·.1)).Nodup)
    (h : generate_speeches resp s = .ok s') :
    s'.speeches.map (·.1) =
      (s.role_assignment.map (·.1)).filter
        (fun a => !(s.eliminated.contains a)) ∧
    ∀ item ∈ s.role_assignment, item.1 ∉ s.eliminated →
      ∃ sp, lookupA s'.speeches item.1 = some sp ∧ sp ≠ "" ∧
        (resp (historyContext s.history_speeches s.eliminated) item.1 =
            .malformed →
          sp = (speechFallback s.round item.2.1).1) ∧
        (∀ d, resp (historyContext s.history_speeches s.eliminated) item.1 =
            .parsed d →
          (d.speech.length < 10 →
            sp = d.speech ++
              (if item.2.1 = "平民" then civilianPad else undercoverPad)) ∧
          (¬ d.speech.length < 10 → sp = d.speech)) := by
  obtain ⟨_, _, _, _, _, _, _, _, _, _, hloop⟩ := generate_speeches_ok h
  refine ⟨speechLoop_keys hloop, ?_⟩
  intro item hitem hact
  obtain ⟨sp, rs, hstep, hlook⟩ := speechLoop_lookup hloop hnd item hitem hact
  refine ⟨sp, hlook, speechStep_ne_empty hstep, ?_, ?_⟩
  · intro hmal
    rw [hmal, speechStep_malformed] at hstep
    exact (congrArg Prod.fst (Except.ok.inj hstep)).symm
  · intro d hpar
    rw [hpar, speechStep_parsed] at hstep
    have h1 := congrArg Prod.fst (Except.ok.inj hstep)
    simp only at h1
    constructor
    · intro hlen
      rw [← h1, if_pos hlen]
    · intro hlen
      rw [← h1, if_neg hlen]

/-- Witness for C6: running the speech phase on `sAssigned` with every
response unparseable records the civilian fallback statement for `agent2`,
non-empty. -/
theorem speech_repair_policy_witness :
    (generate_speeches respSpeechMal sAssigned).isOk = true ∧
    lookupA (okState (generate_speeches respSpeechMal sAssigned)).speeches
        "agent2" = some (speechFallback 1 "平民").1 ∧
    (speechFallback 1 "平民").1 ≠ "" := by
  have h : generate_speeches respSpeechMal sAssigned =
      .ok (okState (generate_speeches respSpeechMal sAssigned)) := rfl
  obtain ⟨_, hentries⟩ := speech_repair_policy (by decide) h
  obtain ⟨sp, hlook, hne, hmal, _⟩ :=
    hentries ("agent2", ("平民", "奶茶")) (by decide) (by decide)
  have hsp : sp = (speechFallback 1 "平民").1 := hmal rfl
  subst hsp
  exact ⟨rfl, hlook, hne⟩

/-- Counterexample to C7 as stated: the judgment does not purge the
just-eliminated agent from `speeches` or `votes`, so the reachable state
right after the first judgment of a concrete run (everyone votes the
majority-holder `agent2`, who is eliminated while the game continues) keeps
`agent2` as a key of both mappings even though it is in `eliminated`. -/
theorem eliminated_key_persists_after_judgment :
    (fullGame oDemo 1).isOk = true ∧
    (okState (fullGame oDemo 1)).game_status = "running" ∧
    (okState (fullGame oDemo 1)).eliminated = ["agent2"] ∧
    ((okState (fullGame oDemo 1)).votes.map (·.1)).contains "agent2"
      = true ∧
    ((okState (fullGame oDemo 1)).speeches.map (·.1)).contains "agent2"
      = true := by
  exact ⟨rfl, rfl, rfl, by decide, by decide⟩

/-- C7 (amended): the mappings produced by each phase after an elimination
exclude eliminated agents — the speech phase keys and the history entry it
appends contain no eliminated agent, the voting phase keys contain no
eliminated agent, and the context strings built for the speech and voting
phases are unchanged when eliminated agents are erased from the speech
history — but entries of the round in which an agent was eliminated persist
in `speeches`/`votes` until the next phase overwrites them. -/
theorem eliminated_excluded_from_new_phase_outputs :
    (∀ (resp : String → String → LLMResp SpeechData) (s s' : GameState),
       generate_speeches resp s = .ok s' →
       (∀ a ∈ s.eliminated, a ∉ s'.speeches.map (·.1)) ∧
       s'.history_speeches = s.history_speeches ++ [s'.speeches]) ∧
    (∀ (resp : String → String → LLMResp VoteData) (rand : Nat → Nat)
       (s s' : GameState), vote_undercover resp rand s = .ok s' →
       ∀ a ∈ s.eliminated, a ∉ s'.votes.map (·.1)) ∧
    (∀ (hist : List (List (String × String))) (elim : List String),
       historyContext
           (hist.map (fun r => r.filter (fun p => !(elim.contains p.1))))
           elim =
         historyContext hist elim) ∧
    (∀ (s : GameState) (hist : List (List (String × String))),
       voteHistBlock (currentAgents s) 1
           (hist.map (fun r =>
             r.filter (fun p => !(s.eliminated.contains p.1)))) =
         voteHistBlock (currentAgents s) 1 hist) := by
  refine ⟨?_, ?_, ?_, ?_⟩
  · intro resp s s' h
    obtain ⟨_, _, _, _, _, _, _, _, _, hhist, hloop⟩ :=
      generate_speeches_ok h
    refine ⟨?_, hhist⟩
    intro a ha hmem
    rw [speechLoop_keys hloop] at hmem
    have := List.mem_filter.mp hmem
    simp at this
    exact this.2 ha
  · intro resp rand s s' h a ha hmem
    obtain ⟨_, _, _, _, _, _, _, _, _, _, hloop⟩ := vote_undercover_ok h
    rw [(voteLoop_entries hloop).1] at hmem
    have := List.mem_filter.mp hmem
    simp at this
    exact this.2 ha
  · intro hist elim
    exact historyContext_filter hist elim
  · intro s hist
    exact voteHistBlock_filter (eliminated_not_current s) 1 hist

/-- Witness for the amended C7: the speech and voting phases run on
`sElim` (where `agent3` is eliminated) produce mappings without `agent3`. -/
theorem eliminated_excluded_from_new_phase_outputs_witness :
    (generate_speeches respSpeechMal sElim).isOk = true ∧
    "agent3" ∉
      (okState (generate_speeches respSpeechMal sElim)).speeches.map (·.1) ∧
    (vote_undercover respVoteDemo (fun _ => 0) sElim).isOk = true ∧
    "agent3" ∉
      (okState (vote_undercover respVoteDemo (fun _ => 0) sElim)).votes.map
        (·.1) := by
  have h1 : generate_speeches respSpeechMal sElim =
      .ok (okState (generate_speeches respSpeechMal sElim)) := rfl
  have h2 : vote_undercover respVoteDemo (fun _ => 0) sElim =
      .ok (okState (vote_undercover respVoteDemo (fun _ => 0) sElim)) := rfl
  refine ⟨rfl, ?_, rfl, ?_⟩
  · exact (eliminated_excluded_from_new_phase_outputs.1 respSpeechMal sElim _
      h1).1 "agent3" (by decide)
  · exact eliminated_excluded_from_new_phase_outputs.2.1 respVoteDemo
      (fun _ => 0) sElim _ h2 "agent3" (by decide)

/-- Counterexample to C2 as stated: a raising service call in the speech
phase is not handled by the fallback path — the `try` blocks start only
after `chain.invoke` — so the exception escapes the phase function. -/
theorem speech_service_exception_propagates :
    generate_speeches (fun _ _ => .raised) sAssigned =
      .error .serviceError := rfl

/-- C2 (amended): each phase invokes its local fallback only for malformed
returned text; a service call that raises escapes the phase function
instead.  Precisely: a raising word call makes `generate_words` error while
any non-raising response completes it; a raising call for any active agent
prevents the speech and voting phases from completing (the exception
propagates), while phases whose service calls all return text complete
normally (the voting phase additionally needs a non-voter active agent to
draw fallbacks from). -/
theorem service_exception_propagation_behavior :
    (∀ (k : Nat) (s : GameState),
       generate_words .raised k s = .error .serviceError) ∧
    (∀ (w : LLMResp WordData) (k : Nat) (s : GameState), w ≠ .raised →
       ∃ s', generate_words w k s = .ok s') ∧
    (∀ (resp : String → String → LLMResp SpeechData) (s : GameState),
       (∃ item ∈ s.role_assignment, item.1 ∉ s.eliminated ∧
         resp (historyContext s.history_speeches s.eliminated) item.1 =
           .raised) →
       ∀ s', generate_speeches resp s ≠ .ok s') ∧
    (∀ (resp : String → String → LLMResp SpeechData) (s : GameState),
       (∀ item ∈ s.role_assignment, item.1 ∉ s.eliminated →
         resp (historyContext s.history_speeches s.eliminated) item.1 ≠
           .raised) →
       ∃ s', generate_speeches resp s = .ok s') ∧
    (∀ (resp : String → String → LLMResp VoteData) (rand : Nat → Nat)
       (s : GameState),
       (∃ item ∈ s.role_assignment, item.1 ∉ s.eliminated ∧
         resp (voteSpeechContext s.round s.speeches s.history_speeches
           (currentAgents s)) item.1 = .raised) →
       ∀ s', vote_undercover resp rand s ≠ .ok s') ∧
    (∀ (resp : String → String → LLMResp VoteData) (rand : Nat → Nat)
       (s : GameState),
       (∀ item ∈ s.role_assignment, item.1 ∉ s.eliminated →
         resp (voteSpeechContext s.round s.speeches s.history_speeches
           (currentAgents s)) item.1 ≠ .raised) →
       (∀ item ∈ s.role_assignment, item.1 ∉ s.eliminated →
         (currentAgents s).filter (fun a => !(a == item.1)) ≠ []) →
       ∃ s', vote_undercover resp rand s = .ok s') := by
  refine ⟨fun k s => rfl, ?_, ?_, ?_, ?_, ?_⟩
  · intro w k s hw
    cases w with
    | raised => exact absurd rfl hw
    | malformed =>
        obtain ⟨p, hp⟩ := randomChoice_isSome
          (show fallback_pairs ≠ [] by decide) k
        obtain ⟨c, u⟩ := p
        refine ⟨{ s with civilian_word := c, undercover_word := u }, ?_⟩
        unfold generate_words
        rw [hp]
    | parsed wd => exact ⟨_, rfl⟩
  · intro resp s hex s' h
    exact speechLoop_raise_error s.role_assignment hex _
      (generate_speeches_ok h).2.2.2.2.2.2.2.2.2.2
  · intro resp s hno
    obtain ⟨⟨sps, rss⟩, hloop⟩ :=
      @speechLoop_no_raise_ok
        (resp (historyContext s.history_speeches s.eliminated))
        s.round s.eliminated s.role_assignment hno
    refine ⟨{ s with history_speeches := s.history_speeches ++ [sps],
                     speeches := sps, speech_reasoning := rss }, ?_⟩
    unfold generate_speeches
    rw [hloop]
  · intro resp rand s hex s' h
    exact voteLoop_raise_error s.role_assignment 0 hex _
      (vote_undercover_ok h).2.2.2.2.2.2.2.2.2.2
  · intro resp rand s hno hne
    obtain ⟨⟨vs, rss⟩, hloop⟩ :=
      @voteLoop_no_raise_ok
        (resp (voteSpeechContext s.round s.speeches s.history_speeches
          (currentAgents s)))
        (currentAgents s) s.round s.eliminated rand
        s.role_assignment 0 hno hne
    refine ⟨{ s with votes := vs, vote_reasoning := rss }, ?_⟩
    unfold vote_undercover
    rw [hloop]

/-- Witness for the amended C2 on concrete inputs: a raising word call
errors, a parsed word call completes, and the speech and voting phases on
`sAssigned` complete when no call raises. -/
theorem service_exception_propagation_behavior_witness :
    generate_words .raised 0 init_game_state = .error .serviceError ∧
    (generate_words (.parsed ⟨"奶茶", "果汁"⟩) 0 init_game_state).isOk
      = true ∧
    (generate_speeches respSpeechMal sAssigned).isOk = true ∧
    (vote_undercover respVoteDemo (fun _ => 0) sAssigned).isOk = true := by
  refine ⟨service_exception_propagation_behavior.1 0 init_game_state,
    ?_, ?_, ?_⟩
  · obtain ⟨s', hs⟩ := service_exception_propagation_behavior.2.1
      (.parsed ⟨"奶茶", "果汁"⟩) 0 init_game_state (by decide)
    rw [hs]; rfl
  · obtain ⟨s', hs⟩ := service_exception_propagation_behavior.2.2.2.1
      respSpeechMal sAssigned (by decide)
    rw [hs]; rfl
  · obtain ⟨s', hs⟩ := service_exception_propagation_behavior.2.2.2.2.2
      respVoteDemo (fun _ => 0) sAssigned (by decide) (by decide)
    rw [hs]; rfl

/-- Counterexample to C8 as stated: a response that parses with both
required fields present passes through without any non-emptiness check, so
an empty `civilian` field is stored verbatim — the generator does not
always return non-empty words. -/
theorem lexicon_empty_word_accepted :
    (generate_words (.parsed ⟨"", "果汁"⟩) 0 init_game_state).map
        (·.civilian_word) =
      .ok "" := rfl

/-- C8 (amended): on a parse failure or missing field `generate_words`
falls back to a uniformly random pair from the fixed curated list — every
listed pair is reachable and every listed pair has two non-empty words —
while a successfully parsed pair is stored verbatim even when a word is
empty, and a raising service call escapes the function instead of being
recovered. -/
theorem lexicon_fallback_behavior :
    (∀ (k : Nat) (s : GameState), ∃ s',
       generate_words .malformed k s = .ok s' ∧
       (s'.civilian_word, s'.undercover_word) ∈ fallback_pairs) ∧
    (∀ p ∈ fallback_pairs, p.1 ≠ "" ∧ p.2 ≠ "") ∧
    (∀ p ∈ fallback_pairs, ∀ s : GameState, ∃ k s',
       generate_words .malformed k s = .ok s' ∧
       s'.civilian_word = p.1 ∧ s'.undercover_word = p.2) ∧
    (∀ (w : WordData) (k : Nat) (s : GameState),
       generate_words (.parsed w) k s =
         .ok { s with civilian_word := w.civilian,
                      undercover_word := w.undercover }) ∧
    (∀ (k : Nat) (s : GameState),
       generate_words .raised k s = .error .serviceError) := by
  refine ⟨?_, by decide, ?_, fun w k s => rfl, fun k s => rfl⟩
  · intro k s
    obtain ⟨p, hp⟩ := randomChoice_isSome
      (show fallback_pairs ≠ [] by decide) k
    obtain ⟨c, u⟩ := p
    refine ⟨{ s with civilian_word := c, undercover_word := u }, ?_, ?_⟩
    · unfold generate_words
      rw [hp]
    · exact randomChoice_mem hp
  · intro p hp s
    obtain ⟨c, u⟩ := p
    obtain ⟨k, hk⟩ := randomChoice_surj hp
    refine ⟨k, { s with civilian_word := c, undercover_word := u },
      ?_, rfl, rfl⟩
    unfold generate_words
    rw [hk]

/-- Witness for the amended C8: the fallback of `generate_words` on a
malformed response completes and lands in the curated list, whose first
pair has non-empty words. -/
theorem lexicon_fallback_behavior_witness :
    (generate_words .malformed 0 init_game_state).isOk = true ∧
    ("奶茶", "果汁") ∈ fallback_pairs ∧
    ("奶茶" : String) ≠ "" ∧ ("果汁" : String) ≠ "" := by
  obtain ⟨s', hs, hmem⟩ := lexicon_fallback_behavior.1 0 init_game_state
  obtain ⟨h1, h2⟩ := lexicon_fallback_behavior.2.1 ("奶茶", "果汁") (by decide)
  exact ⟨by rw [hs]; rfl, by decide, h1, h2⟩

theorem raOf_role_count {u : String} (hu : u ∈ agents) (cw uw : String) :
    ((raOf u cw uw).map (fun p => p.2.1)).count "卧底" = 1 := by
  rcases (show u = "agent1" ∨ u = "agent2" ∨ u = "agent3" ∨ u = "agent4" by
    simpa [agents] using hu) with rfl | rfl | rfl | rfl <;>
    simp [raOf, agents]

/-- C9: from an empty assignment, `assign_roles` writes an entry for each of
the four fixed agents in order, giving exactly one agent — the uniformly
drawn `chosenUndercover k`, which can be any of the four — the minority
role `卧底` with the minority word, and all others the majority role `平民`
with the majority word; and no later phase (speeches, votes, judgment)
modifies `role_assignment`. -/
theorem role_assignment_unique_minority :
    (∀ (k : Nat) (s : GameState), s.role_assignment = [] →
       (assign_roles k s).role_assignment =
         raOf (chosenUndercover k) s.civilian_word s.undercover_word ∧
       chosenUndercover k ∈ agents ∧
       (assign_roles k s).role_assignment.map (·.1) = agents ∧
       ((assign_roles k s).role_assignment.map (fun p => p.2.1)).count "卧底"
         = 1 ∧
       (∀ p ∈ (assign_roles k s).role_assignment,
         (p.1 = chosenUndercover k ∧
           p.2 = ("卧底", s.undercover_word)) ∨
         (p.1 ≠ chosenUndercover k ∧
           p.2 = ("平民", s.civilian_word)))) ∧
    (∀ a ∈ agents, ∃ k, chosenUndercover k = a) ∧
    (∀ (resp : String → String → LLMResp SpeechData) (s s' : GameState),
       generate_speeches resp s = .ok s' →
       s'.role_assignment = s.role_assignment) ∧
    (∀ (resp : String → String → LLMResp VoteData) (rand : Nat → Nat)
       (s s' : GameState), vote_undercover resp rand s = .ok s' →
       s'.role_assignment = s.role_assignment) ∧
    (∀ (k : Nat) (s s' : GameState), judge_result k s = .ok s' →
       s'.role_assignment = s.role_assignment) := by
  refine ⟨?_, ?_, ?_, ?_, ?_⟩
  · intro k s h
    have hra := @assign_roles_ra k s h
    refine ⟨hra, chosenUndercover_mem k, ?_, ?_, ?_⟩
    · rw [hra]; exact raOf_keys _ _ _
    · rw [hra]; exact raOf_role_count (chosenUndercover_mem k) _ _
    · rw [hra]
      intro p hp
      obtain ⟨a, _, hap⟩ := List.mem_map.mp hp
      by_cases hau : a = chosenUndercover k
      · exact .inl ⟨by rw [← hap, hau], by rw [← hap]; simp [hau]⟩
      · exact .inr ⟨by rw [← hap]; exact hau, by rw [← hap]; simp [hau]⟩
  · intro a ha
    exact chosenUndercover_surj ha
  · intro resp s s' h
    exact (generate_speeches_ok h).2.2.1
  · intro resp rand s s' h
    exact (vote_undercover_ok h).2.2.1
  · intro k s s' h
    obtain ⟨e, role, word, _, _, _, _, hra, _⟩ := judge_char h
    exact hra

/-- Witness for C9 at seed 0 from the initial state: `agent1` is drawn as
the undercover and the produced assignment has the four agents with exactly
one minority role. -/
theorem role_assignment_unique_minority_witness :
    (assign_roles 0 init_game_state).role_assignment.map (·.1) = agents ∧
    ((assign_roles 0 init_game_state).role_assignment.map
      (fun p => p.2.1)).count "卧底" = 1 ∧
    chosenUndercover 0 ∈ agents := by
  obtain ⟨_, hmem, hkeys, hcount, _⟩ :=
    role_assignment_unique_minority.1 0 init_game_state rfl
  exact ⟨hkeys, hcount, hmem⟩

/-- C10: with the fixed 4-player, 1-minority configuration, each judgment
either ends the game or strictly reduces the number of active
majority-holders by one, and every run of the full game from the initial
state that returns normally is over after at most 2 judgment calls: the
final status is `end`, at most 2 players were eliminated, and the final
round counter is at most 2. -/
theorem four_player_game_terminates :
    (∀ (k : Nat) (s s' : GameState),
       (s.role_assignment.map (·.1)).Nodup →
       (∀ p ∈ s.role_assignment, p.2.1 = "平民" ∨ p.2.1 = "卧底") →
       (∀ v ∈ s.votes.map (·.2), v ∈ currentAgents s) →
       judge_result k s = .ok s' →
       s'.game_status = "end" ∨
         civActive s'.role_assignment s'.eliminated + 1 =
           civActive s.role_assignment s.eliminated) ∧
    (∀ (o : Oracles) (n : Nat) (s' : GameState), 2 ≤ n →
       fullGame o n = .ok s' →
       s'.game_status = "end" ∧ s'.eliminated.length ≤ 2 ∧
       s'.round ≤ 2) := by
  constructor
  · intro k s s' hnd hbin ht h
    exact judge_progress hnd hbin ht h
  · intro o n s' hn h
    unfold fullGame at h
    cases hw : generate_words o.words o.wordRand init_game_state with
    | error e => rw [hw] at h; cases h
    | ok s1 =>
        rw [hw] at h
        dsimp only at h
        obtain ⟨hra, _, _, _, _, _, hst, _, helim, hround⟩ :=
          generate_words_ok hw
        have hra0 : s1.role_assignment = [] := by rw [hra]; rfl
        have hra2 := @assign_roles_ra o.roleRand s1 hra0
        have hmem := chosenUndercover_mem o.roleRand
        have hstA : (assign_roles o.roleRand s1).game_status = "running" := by
          have h1 : (assign_roles o.roleRand s1).game_status =
              s1.game_status := rfl
          rw [h1, hst]
          rfl
        have helimA : (assign_roles o.roleRand s1).eliminated = [] := by
          have h1 : (assign_roles o.roleRand s1).eliminated =
              s1.eliminated := rfl
          rw [h1, helim]
          rfl
        have hroundA : (assign_roles o.roleRand s1).round = 1 := by
          have h1 : (assign_roles o.roleRand s1).round = s1.round := rfl
          rw [h1, hround]
          rfl
        have hcounts := raOf_counts hmem s1.civilian_word s1.undercover_word
        have hciv : civActive (assign_roles o.roleRand s1).role_assignment
            (assign_roles o.roleRand s1).eliminated = 3 := by
          rw [hra2, helimA]; exact hcounts.1
        have huc : ucActive (assign_roles o.roleRand s1).role_assignment
            (assign_roles o.roleRand s1).eliminated = 1 := by
          rw [hra2, helimA]; exact hcounts.2
        have hnd : ((assign_roles o.roleRand s1).role_assignment.map
            (·.1)).Nodup := by
          rw [hra2]; exact raOf_keys_nodup _ _ _
        have hbin : ∀ p ∈ (assign_roles o.roleRand s1).role_assignment,
            p.2.1 = "平民" ∨ p.2.1 = "卧底" := by
          rw [hra2]; exact raOf_binary _ _ _
        obtain ⟨m, rfl⟩ : ∃ m, n = m + 2 := ⟨n - 2, by omega⟩
        obtain ⟨hend, hlen, hrd⟩ :=
          runLoop_bound m (assign_roles o.roleRand s1) s' hnd hbin hciv huc
            hstA h
        rw [helimA] at hlen
        rw [hroundA] at hrd
        exact ⟨hend, by simpa using hlen, hrd⟩

/-- Witness for C10: the concrete run with oracles `oDemo` ends within two
judgments (round 2, two eliminations), and the concrete judgment on
`sJudge` reduces the active majority count by one. -/
theorem four_player_game_terminates_witness :
    (fullGame oDemo 2).isOk = true ∧
    (okState (fullGame oDemo 2)).game_status = "end" ∧
    (okState (fullGame oDemo 2)).eliminated.length ≤ 2 ∧
    (okState (fullGame oDemo 2)).round ≤ 2 ∧
    civActive (okState (judge_result 0 sJudge)).role_assignment
        (okState (judge_result 0 sJudge)).eliminated + 1 =
      civActive sJudge.role_assignment sJudge.eliminated := by
  have h : fullGame oDemo 2 = .ok (okState (fullGame oDemo 2)) := rfl
  have hj : judge_result 0 sJudge = .ok (okState (judge_result 0 sJudge)) :=
    rfl
  obtain ⟨hend, hlen, hrd⟩ :=
    four_player_game_terminates.2 oDemo 2 _ (by omega) h
  rcases four_player_game_terminates.1 0 sJudge _ (by decide) (by decide)
      (by decide) hj with hj1 | hj1
  · exact absurd (show ("running" : String) = "end" from hj1) (by decide)
  · exact ⟨rfl, hend, hlen, hrd, hj1⟩
